import Mathlib

/-!
Verification of the persistence layer of the research-canvas server
(file `server/index.js` of the repository; the GCS-backed document store,
index helpers, node-data offload/hydrate, and the workspace/canvas routes).

Modelling conventions, used throughout:

* JSON values are the inductive `JVal`.  JavaScript `undefined` (an absent
  object property) is modelled as `Option.none` wherever the code reads a
  property; JavaScript `null` is `JVal.null`.  `JSON.stringify` drops
  properties whose value is `undefined`, so an object field that is absent
  and one that holds `undefined` are indistinguishable both to the `===`
  comparisons and to storage, which justifies representing both as an
  omitted field.
* Numbers are `Int` (the code never divides nor produces NaN on the paths
  the claims are about), strings are `String`.
* Storage keys are segment lists: the GCS object name "a/b/c" is the list
  ["a", "b", "c"].  The trailing-slash bulk-delete "a/b/" of the source
  is the segment list ["a", "b"] matched as a strict segment-wise
  pre-list; this preserves exactly which stored objects each source
  string-prefix matches, because every object name the server ever writes
  is slash-separated segments and no written name is a proper string
  extension of a segment.
* The blob store is an association list from key to `StoredVal`; a stored
  object is either parseable JSON (`.valid v`) or unparseable bytes
  (`.corrupt`), on which `JSON.parse` (hence `readJSON`) throws.
* Thrown exceptions are `Except Unit`; the route bodies wrap everything
  in try/catch and answer HTTP 500, modelled by `Resp.serverErr`.
* The state `St` carries the blob store, the in-process TTL cache, and a
  ghost `log` of every storage key passed to a read, write or delete.
  The log has no influence on behaviour; it exists so that tenant
  isolation ("every path touched starts with the tenant") is a statement
  about runs.
* `async`/`await` interleaving: each route handler runs its awaits in
  program order; `Promise.all` over independent per-item actions is
  modelled by the corresponding sequential fold (the actions touch
  pairwise disjoint keys, or, for hydration, only read).
-/

inductive JVal where
  | null : JVal
  | bool : Bool → JVal
  | num : Int → JVal
  | str : String → JVal
  | arr : List JVal → JVal
  | obj : List (String × JVal) → JVal

/-- JavaScript truthiness of a defined value.  (NaN does not arise: numbers
are modelled as integers.) -/
def truthy : JVal → Bool
  | .null => false
  | .bool b => b
  | .num n => !(n == 0)
  | .str s => !(s == "")
  | .arr _ => true
  | .obj _ => true

/-- Truthiness of a possibly-undefined value (`none` = `undefined`). -/
def truthyOpt : Option JVal → Bool
  | none => false
  | some v => truthy v

/-- First-match lookup in an object field list (JS objects never hold a
duplicate key, so first-match agrees with JS property read). -/
def lookupF : List (String × JVal) → String → Option JVal
  | [], _ => none
  | (k0, v0) :: rest, k => if k0 = k then some v0 else lookupF rest k

/-- Property read `x[k]`: on a non-object the keys used by this server all
yield `undefined`. -/
def getF (x : JVal) (k : String) : Option JVal :=
  match x with
  | .obj fs => lookupF fs k
  | _ => none

/-- Property write inside a field list: overwrite the existing key in place
or append, exactly like JS assignment on an object. -/
def setFields : List (String × JVal) → String → JVal → List (String × JVal)
  | [], k, v => [(k, v)]
  | (k0, v0) :: rest, k, v =>
    if k0 = k then (k0, v) :: rest else (k0, v0) :: setFields rest k v

/-- Property write `x[k] = v`.  On a non-object the source would raise a
TypeError (strict mode); no claim exercises that, and it is modelled as a
no-op. -/
def setF (x : JVal) (k : String) (v : JVal) : JVal :=
  match x with
  | .obj fs => .obj (setFields fs k v)
  | other => other

def removeKey : List (String × JVal) → String → List (String × JVal)
  | [], _ => []
  | (k0, v0) :: rest, k =>
    if k0 = k then removeKey rest k else (k0, v0) :: removeKey rest k

/-- Property delete `delete x[k]`; a no-op on a non-object. -/
def delF (x : JVal) (k : String) : JVal :=
  match x with
  | .obj fs => .obj (removeKey fs k)
  | other => other

/-- JavaScript string coercion as used in template literals and property
keys.  Array and object coercions are not exercised by any claim and get
fixed placeholder strings. -/
def jsStr : Option JVal → String
  | some (.str s) => s
  | some (.num n) => toString n
  | some (.bool true) => "true"
  | some (.bool false) => "false"
  | some .null => "null"
  | none => "undefined"
  | some (.arr _) => "[array]"
  | some (.obj _) => "[object Object]"

/-- Strict equality `===` between two possibly-undefined values.  Faithful
for `undefined`, `null`, booleans, numbers and strings.  When either side
is an object or an array, `===` in JS is reference identity; the two sides
here always come from separately parsed or separately constructed values,
so the comparison is modelled as false. -/
def jsStrictEq : Option JVal → Option JVal → Bool
  | none, none => true
  | some .null, some .null => true
  | some (.bool a), some (.bool b) => a == b
  | some (.num a), some (.num b) => a == b
  | some (.str a), some (.str b) => a == b
  | _, _ => false

/-- A primitive (non-reference) value, where `===` is value equality. -/
def isPrimOpt : Option JVal → Bool
  | none => true
  | some .null => true
  | some (.bool _) => true
  | some (.num _) => true
  | some (.str _) => true
  | _ => false

/-- Storage keys as slash-separated segment lists. -/
abbrev SPath := List String

/-- Split a character list at every slash (the segments of "a/b/c"). -/
def splitSlash : List Char → List (List Char)
  | [] => [[]]
  | c :: rest =>
    let r := splitSlash rest
    if c = '/' then [] :: r
    else
      match r with
      | [] => [[c]]
      | s :: ss => (c :: s) :: ss

/-- The segment-list encoding of a storage key given as a string (used when
a stored `_dataRef` string is handed to the blob layer verbatim). -/
def strToPath (s : String) : SPath := (splitSlash s.toList).map (fun l => String.mk l)

inductive StoredVal where
  | valid : JVal → StoredVal
  | corrupt : StoredVal

/-- Full server state: blob store, TTL cache, and the ghost log of storage
keys touched. -/
structure St where
  store : List (SPath × StoredVal)
  cache : List (String × (JVal × Int))
  log : List SPath

def emptySt : St := ⟨[], [], []⟩

def lookupStore : List (SPath × StoredVal) → SPath → Option StoredVal
  | [], _ => none
  | (q, v) :: rest, p => if q = p then some v else lookupStore rest p

def eraseKeySt : List (SPath × StoredVal) → SPath → List (SPath × StoredVal)
  | [], _ => []
  | (q, v) :: rest, p =>
    if q = p then eraseKeySt rest p else (q, v) :: eraseKeySt rest p

def storePut (s : List (SPath × StoredVal)) (p : SPath) (v : StoredVal) :
    List (SPath × StoredVal) :=
  (p, v) :: eraseKeySt s p

/-- `readJSON(path)`: null when the object is absent, throws when the bytes
do not parse. -/
def readJSON (p : SPath) (st : St) : Except Unit (Option JVal) × St :=
  (match lookupStore st.store p with
   | none => .ok none
   | some (.valid v) => .ok (some v)
   | some .corrupt => .error (),
   { st with log := st.log ++ [p] })

/-- `writeJSON(path, data)`: overwrite. -/
def writeJSON (p : SPath) (v : JVal) (st : St) : St :=
  { st with store := storePut st.store p (.valid v), log := st.log ++ [p] }

/-- `deleteFile(path)`: idempotent delete. -/
def deleteFileOp (p : SPath) (st : St) : St :=
  { st with store := eraseKeySt st.store p, log := st.log ++ [p] }

/-- `deleteByPrefix(prefix)` for a trailing-slash string prefix: removes
every stored object strictly below the segment list. -/
def deleteByPfx (pre : SPath) (st : St) : St :=
  { st with store := st.store.filter (fun e => !(List.isPrefixOf pre e.1)),
            log := st.log ++ [pre] }

-- ─── In-memory cache (60 second TTL) ───

def cacheTTL : Int := 60000

/-- `getCached(key)`: the entry, if present and inserted within the TTL. -/
def cacheGet : List (String × (JVal × Int)) → String → Int → Option JVal
  | [], _, _ => none
  | (k, (d, t)) :: rest, key, now =>
    if k = key then (if now - t < cacheTTL then some d else none)
    else cacheGet rest key now

def cacheSet (c : List (String × (JVal × Int))) (key : String) (d : JVal)
    (now : Int) : List (String × (JVal × Int)) :=
  (key, (d, now)) :: c.filter (fun e => !(e.1 == key))

-- ─── Index file helpers ───

def idxPath (t ty : String) : SPath := [t, ty ++ "-index.json"]

def idxCacheKey (t ty : String) : String := t ++ "/" ++ ty ++ "-index"

/-- `readJSON(...) || []` of the source. -/
def orEmptyArr : Option JVal → JVal
  | some v => if truthy v then v else .arr []
  | none => .arr []

def readIndexMiss (t ty : String) (st : St) (now : Int) :
    Except Unit JVal × St :=
  let (r, st1) := readJSON (idxPath t ty) st
  match r with
  | .error _ => (.error (), st1)
  | .ok ov =>
    let data := orEmptyArr ov
    (.ok data, { st1 with cache := cacheSet st1.cache (idxCacheKey t ty) data now })

/-- `readIndex(userId, type)`: cache first (the source checks the cached
value for truthiness before using it), storage on a miss, defaulting to
the empty array, then populating the cache. -/
def readIndex (t ty : String) (st : St) (now : Int) : Except Unit JVal × St :=
  match cacheGet st.cache (idxCacheKey t ty) now with
  | some c => if truthy c then (.ok c, st) else readIndexMiss t ty st now
  | none => readIndexMiss t ty st now

/-- `writeIndex(userId, type, items)`: overwrite plus cache update. -/
def writeIndex (t ty : String) (items : JVal) (st : St) (now : Int) : St :=
  let st1 := writeJSON (idxPath t ty) items st
  { st1 with cache := cacheSet st1.cache (idxCacheKey t ty) items now }

/-- `upsertIndex(userId, type, item)` with the default idField "id"
(every call site uses the default): read the index, replace the first
entry whose id strictly equals the id of `item` or append, write back.
`findIndex` on a truthy non-array value throws. -/
def upsertIndex (t ty : String) (item : JVal) (st : St) (now : Int) :
    Except Unit Unit × St :=
  let (r, st1) := readIndex t ty st now
  match r with
  | .error _ => (.error (), st1)
  | .ok dataJ =>
    match dataJ with
    | .arr items =>
      let idx := items.findIdx (fun i => jsStrictEq (getF i "id") (getF item "id"))
      let items2 := if idx < items.length then items.set idx item else items ++ [item]
      (.ok (), writeIndex t ty (.arr items2) st1 now)
    | _ => (.error (), st1)

/-- `removeFromIndex(userId, type, id)` with the default idField "id":
keep every entry whose id is not strictly equal to `id`. -/
def removeFromIndex (t ty : String) (id : JVal) (st : St) (now : Int) :
    Except Unit Unit × St :=
  let (r, st1) := readIndex t ty st now
  match r with
  | .error _ => (.error (), st1)
  | .ok dataJ =>
    match dataJ with
    | .arr items =>
      let filtered := items.filter (fun i => !(jsStrictEq (getF i "id") (some id)))
      (.ok (), writeIndex t ty (.arr filtered) st1 now)
    | _ => (.error (), st1)

-- ─── Canvas index projection ───

def optField (k : String) (v : Option JVal) : List (String × JVal) :=
  match v with
  | some x => [(k, x)]
  | none => []

/-- `canvas.nodes?.length || 0`: length of an array (or of a string, the
only other value with a length), otherwise 0. -/
def nodeCountOf (c : JVal) : Int :=
  match getF c "nodes" with
  | some (.arr xs) => Int.ofNat xs.length
  | some (.str s) => Int.ofNat s.length
  | _ => 0

/-- `canvasMetaForIndex(canvas)`.  A source field whose value is
`undefined` is dropped, matching both `===` reads and JSON serialization
(see the conventions above). -/
def canvasMetaForIndex (c : JVal) : JVal :=
  .obj (optField "id" (getF c "id") ++ optField "title" (getF c "title") ++
    optField "workspaceId" (getF c "workspaceId") ++
    optField "createdAt" (getF c "createdAt") ++
    optField "updatedAt" (getF c "updatedAt") ++
    [("nodeCount", .num (nodeCountOf c))])

-- ─── Node data offload / hydrate ───

def bundlePath (t cid : String) : SPath := [t, "canvas-data", cid ++ ".json"]

/-- Property key `bundle[node.id]` uses the string coercion of the id. -/
def nodeKey (n : JVal) : String := jsStr (getF n "id")

/-- The loop body of `offloadNodeData`: walk the nodes in order; a node
with truthy `data` moves that value into the bundle object under its id
and loses its `data` property; every other node is untouched. -/
def offloadAux : List (String × JVal) → List JVal →
    List (String × JVal) × List JVal
  | b, [] => (b, [])
  | b, n :: rest =>
    match getF n "data" with
    | some v =>
      if truthy v then
        let r := offloadAux (setFields b (nodeKey n) v) rest
        (r.1, delF n "data" :: r.2)
      else
        let r := offloadAux b rest
        (r.1, n :: r.2)
    | none =>
      let r := offloadAux b rest
      (r.1, n :: r.2)

/-- `offloadNodeData(nodes, userId, canvasId)`: no-op unless `nodes` is an
array; writes the bundle only when it is non-empty.  Returns the (possibly
mutated in place) `nodes` value together with the new state. -/
def offloadNodeData (nodesVal : Option JVal) (t cid : String) (st : St) :
    Option JVal × St :=
  match nodesVal with
  | some (.arr ns) =>
    let r := offloadAux [] ns
    (some (.arr r.2),
     if r.1.isEmpty then st else writeJSON (bundlePath t cid) (.obj r.1) st)
  | v => (v, st)

def defaultNodeData : JVal :=
  .obj [("type", .str "text"), ("title", .str ""), ("content", .str "")]

def failNodeData : JVal :=
  .obj [("type", .str "text"), ("title", .str "(数据加载失败)"), ("content", .str "")]

/-- One node of the bundled-format hydration branch:
`if (bundle[node.id]) node.data = bundle[node.id]; else if (!node.data)
node.data = default`. -/
def hydrateNode1 (bundle n : JVal) : JVal :=
  match getF bundle (nodeKey n) with
  | some v =>
    if truthy v then setF n "data" v
    else if truthyOpt (getF n "data") then n else setF n "data" defaultNodeData
  | none =>
    if truthyOpt (getF n "data") then n else setF n "data" defaultNodeData

/-- The legacy per-node fallback of `hydrateNodeData`: for each node with a
truthy `_dataRef`, read that file; on success assign the parsed value (null
when the file is absent) to `data` and delete `_dataRef`; when the read
throws, catch it per node and substitute the failure placeholder if `data`
is falsy, keeping `_dataRef`.  A truthy non-string ref is rejected by the
blob layer and lands in the same catch.  `Promise.all` over the nodes is
modelled as the in-order fold (the actions only read). -/
def hydrateLegacy : List JVal → St → List JVal × St
  | [], st => ([], st)
  | n :: rest, st =>
    match getF n "_dataRef" with
    | some r =>
      if truthy r then
        match r with
        | .str ref =>
          let (res, st1) := readJSON (strToPath ref) st
          match res with
          | .ok od =>
            let n1 := delF (setF n "data" (od.getD .null)) "_dataRef"
            let r2 := hydrateLegacy rest st1
            (n1 :: r2.1, r2.2)
          | .error _ =>
            let n1 := if truthyOpt (getF n "data") then n
                      else setF n "data" failNodeData
            let r2 := hydrateLegacy rest st1
            (n1 :: r2.1, r2.2)
        | _ =>
          let n1 := if truthyOpt (getF n "data") then n
                    else setF n "data" failNodeData
          let r2 := hydrateLegacy rest st
          (n1 :: r2.1, r2.2)
      else
        let r2 := hydrateLegacy rest st
        (n :: r2.1, r2.2)
    | none =>
      let r2 := hydrateLegacy rest st
      (n :: r2.1, r2.2)

/-- `hydrateNodeData(nodes, userId, canvasId)`: no-op unless `nodes` is an
array; reads the bundle document first (a corrupt bundle throws out of the
whole call); with a truthy bundle every node is resolved against it,
otherwise the legacy per-node fallback runs. -/
def hydrateNodeData (nodesVal : Option JVal) (t cid : String) (st : St) :
    Except Unit (Option JVal) × St :=
  match nodesVal with
  | some (.arr ns) =>
    let (r, st1) := readJSON (bundlePath t cid) st
    match r with
    | .error _ => (.error (), st1)
    | .ok ob =>
      if truthyOpt ob then
        (.ok (some (.arr (ns.map (hydrateNode1 (ob.getD .null))))), st1)
      else
        let r2 := hydrateLegacy ns st1
        (.ok (some (.arr r2.1)), r2.2)
  | v => (.ok v, st)

-- ─── Shallow merge (object spread) ───

/-- The own enumerable fields contributed by spreading a value.  Spreading
`null`, `undefined`, numbers and booleans contributes nothing; spreading a
string would contribute its index properties, which no claim exercises and
which is modelled as nothing. -/
def spreadFieldsO : Option JVal → List (String × JVal)
  | some (.obj fs) => fs
  | _ => []

def spreadFieldsV : JVal → List (String × JVal)
  | .obj fs => fs
  | _ => []

def mergeFields (a b : List (String × JVal)) : List (String × JVal) :=
  b.foldl (fun acc kv => setFields acc kv.1 kv.2) a

-- ─── Route handlers ───

inductive Resp where
  | ok : JVal → Resp
  | notFound : Resp
  | serverErr : Resp

/-- Write a value over a property only when the callee produced one; used
for the in-place mutation of `canvas.nodes` by offload/hydrate. -/
def setFOpt (c : JVal) (k : String) : Option JVal → JVal
  | none => c
  | some v => setF c k v

def okTrue : JVal := .obj [("ok", .bool true)]

/-- `sort((a,b) => (b.updatedAt||0) - (a.updatedAt||0))`: stable descending
sort on the numeric `updatedAt` (falsy or non-numeric sorts as 0, matching
the `|| 0`). -/
def updKey (v : JVal) : Int :=
  match getF v "updatedAt" with
  | some (.num n) => n
  | _ => 0

def insertDesc (x : JVal) : List JVal → List JVal
  | [] => [x]
  | y :: ys => if updKey y ≤ updKey x then x :: y :: ys else y :: insertDesc x ys

def sortByUpdatedDesc : List JVal → List JVal
  | [] => []
  | x :: xs => insertDesc x (sortByUpdatedDesc xs)

/-- GET /api/workspaces.  `sort` on a truthy non-array index value throws. -/
def listWorkspacesR (t : String) (st : St) (now : Int) : Resp × St :=
  let (r, st1) := readIndex t "workspaces" st now
  match r with
  | .error _ => (.serverErr, st1)
  | .ok (.arr ws) => (.ok (.arr (sortByUpdatedDesc ws)), st1)
  | .ok _ => (.serverErr, st1)

/-- POST /api/workspaces. -/
def createWorkspaceR (t : String) (body : JVal) (st : St) (now : Int) :
    Resp × St :=
  let st1 := writeJSON [t, "workspaces", jsStr (getF body "id") ++ ".json"] body st
  let (r, st2) := upsertIndex t "workspaces" body st1 now
  match r with
  | .ok _ => (.ok body, st2)
  | .error _ => (.serverErr, st2)

/-- PUT /api/workspaces/:id.  `{ ...existing, ...req.body }` with
`existing` possibly null. -/
def updateWorkspaceR (t id : String) (body : JVal) (st : St) (now : Int) :
    Resp × St :=
  let p : SPath := [t, "workspaces", id ++ ".json"]
  let (r, st1) := readJSON p st
  match r with
  | .error _ => (.serverErr, st1)
  | .ok oe =>
    let updated : JVal := .obj (mergeFields (spreadFieldsO oe) (spreadFieldsV body))
    let st2 := writeJSON p updated st1
    let (r2, st3) := upsertIndex t "workspaces" updated st2 now
    match r2 with
    | .ok _ => (.ok okTrue, st3)
    | .error _ => (.serverErr, st3)

/-- DELETE /api/workspaces/:id: per matching canvas, bulk-delete the
legacy per-node directory and delete the canvas document; then rewrite the
canvas index without the matching canvases; then delete the workspace
document and remove it from the workspace index.  `filter` on a truthy
non-array index value throws. -/
def deleteWorkspaceR (t wid : String) (st : St) (now : Int) : Resp × St :=
  let (r, st1) := readIndex t "canvases" st now
  match r with
  | .error _ => (.serverErr, st1)
  | .ok (.arr canvasIndex) =>
    let toDel := canvasIndex.filter
      (fun c => jsStrictEq (getF c "workspaceId") (some (.str wid)))
    let st2 := toDel.foldl
      (fun s c =>
        deleteFileOp [t, "canvases", jsStr (getF c "id") ++ ".json"]
          (deleteByPfx [t, "canvas-data", jsStr (getF c "id")] s)) st1
    let remaining := canvasIndex.filter
      (fun c => !(jsStrictEq (getF c "workspaceId") (some (.str wid))))
    let st3 := writeIndex t "canvases" (.arr remaining) st2 now
    let st4 := deleteFileOp [t, "workspaces", wid ++ ".json"] st3
    let (r2, st5) := removeFromIndex t "workspaces" (.str wid) st4 now
    match r2 with
    | .ok _ => (.ok okTrue, st5)
    | .error _ => (.serverErr, st5)
  | .ok _ => (.serverErr, st1)

/-- GET /api/canvases, optionally filtered by `workspaceId` (an empty
query value is falsy and means no filter). -/
def listCanvasesR (t : String) (wsFilter : Option String) (st : St)
    (now : Int) : Resp × St :=
  let (r, st1) := readIndex t "canvases" st now
  match r with
  | .error _ => (.serverErr, st1)
  | .ok (.arr cs) =>
    let cs1 := match wsFilter with
      | some w =>
        if w == "" then cs
        else cs.filter (fun c => jsStrictEq (getF c "workspaceId") (some (.str w)))
      | none => cs
    (.ok (.arr (sortByUpdatedDesc cs1)), st1)
  | .ok _ => (.serverErr, st1)

/-- GET /api/canvases/:id: strict 404 on a falsy document, otherwise
hydrate `canvas.nodes` in place and answer the canvas. -/
def getCanvasR (t id : String) (st : St) : Resp × St :=
  let (r, st1) := readJSON [t, "canvases", id ++ ".json"] st
  match r with
  | .error _ => (.serverErr, st1)
  | .ok oc =>
    if truthyOpt oc then
      let c := oc.getD .null
      let (hr, st2) := hydrateNodeData (getF c "nodes") t id st1
      match hr with
      | .error _ => (.serverErr, st2)
      | .ok nv => (.ok (setFOpt c "nodes" nv), st2)
    else (.notFound, st1)

/-- POST /api/canvases: offload first (mutating the node objects of the
request body in place), write the stripped document, upsert the index
projection, and answer the stripped document. -/
def createCanvasR (t : String) (body : JVal) (st : St) (now : Int) :
    Resp × St :=
  let cid := jsStr (getF body "id")
  let (nv, st1) := offloadNodeData (getF body "nodes") t cid st
  let c1 := setFOpt body "nodes" nv
  let st2 := writeJSON [t, "canvases", cid ++ ".json"] c1 st1
  let (r, st3) := upsertIndex t "canvases" (canvasMetaForIndex c1) st2 now
  match r with
  | .ok _ => (.ok c1, st3)
  | .error _ => (.serverErr, st3)

/-- PUT /api/canvases/:id: offload any nodes of the partial update, read
the existing document defaulting to the empty object, shallow-merge,
write back, re-upsert the index projection. -/
def updateCanvasR (t id : String) (body : JVal) (st : St) (now : Int) :
    Resp × St :=
  let (nv, st1) := offloadNodeData (getF body "nodes") t id st
  let b1 := setFOpt body "nodes" nv
  let p : SPath := [t, "canvases", id ++ ".json"]
  let (r, st2) := readJSON p st1
  match r with
  | .error _ => (.serverErr, st2)
  | .ok oe =>
    let merged : JVal := .obj (mergeFields (spreadFieldsO oe) (spreadFieldsV b1))
    let st3 := writeJSON p merged st2
    let (r2, st4) := upsertIndex t "canvases" (canvasMetaForIndex merged) st3 now
    match r2 with
    | .ok _ => (.ok okTrue, st4)
    | .error _ => (.serverErr, st4)

/-- DELETE /api/canvases/:id: delete the bundle document and the legacy
per-node directory (both storage generations), delete the canvas document,
remove it from the index. -/
def deleteCanvasR (t id : String) (st : St) (now : Int) : Resp × St :=
  let st1 := deleteFileOp [t, "canvas-data", id ++ ".json"] st
  let st2 := deleteByPfx [t, "canvas-data", id] st1
  let st3 := deleteFileOp [t, "canvases", id ++ ".json"] st2
  let (r, st4) := removeFromIndex t "canvases" (.str id) st3 now
  match r with
  | .ok _ => (.ok okTrue, st4)
  | .error _ => (.serverErr, st4)

/-- `existing.length > 0` of the seed route (length of a non-array,
non-string value is `undefined`, and `undefined > 0` is false). -/
def jsLen : JVal → Int
  | .arr xs => Int.ofNat xs.length
  | .str s => Int.ofNat s.length
  | _ => 0

/-- POST /api/seed: refuse when the workspace index is non-empty,
otherwise offload the seed canvas and write both documents and both index
entries.  Accessing `canvas.nodes` with `canvas` undefined throws before
anything is written; `workspace.id` with `workspace` undefined throws
after the offload has already run. -/
def seedR (t : String) (body : JVal) (st : St) (now : Int) : Resp × St :=
  let (r, st1) := readIndex t "workspaces" st now
  match r with
  | .error _ => (.serverErr, st1)
  | .ok exJ =>
    if 0 < jsLen exJ then
      (.ok (.obj [("seeded", .bool false), ("message", .str "Data already exists")]), st1)
    else
      match getF body "canvas" with
      | none => (.serverErr, st1)
      | some cv =>
        let cid := jsStr (getF cv "id")
        let (nv, st2) := offloadNodeData (getF cv "nodes") t cid st1
        let cv1 := setFOpt cv "nodes" nv
        match getF body "workspace" with
        | none => (.serverErr, st2)
        | some ws =>
          let st3 := writeJSON [t, "workspaces", jsStr (getF ws "id") ++ ".json"] ws st2
          let st4 := writeJSON [t, "canvases", cid ++ ".json"] cv1 st3
          let (r1, st5) := upsertIndex t "workspaces" ws st4 now
          match r1 with
          | .error _ => (.serverErr, st5)
          | .ok _ =>
            let (r2, st6) := upsertIndex t "canvases" (canvasMetaForIndex cv1) st5 now
            match r2 with
            | .error _ => (.serverErr, st6)
            | .ok _ => (.ok (.obj [("seeded", .bool true)]), st6)

/-- The workspace/canvas operations of the API surface, for statements
that quantify over every operation. -/
inductive Op where
  | listWs : Op
  | createWs : JVal → Op
  | updateWs : String → JVal → Op
  | deleteWs : String → Op
  | listCv : Option String → Op
  | getCv : String → Op
  | createCv : JVal → Op
  | updateCv : String → JVal → Op
  | deleteCv : String → Op
  | seedOp : JVal → Op

def runOp (op : Op) (t : String) (st : St) (now : Int) : Resp × St :=
  match op with
  | .listWs => listWorkspacesR t st now
  | .createWs body => createWorkspaceR t body st now
  | .updateWs id body => updateWorkspaceR t id body st now
  | .deleteWs id => deleteWorkspaceR t id st now
  | .listCv w => listCanvasesR t w st now
  | .getCv id => getCanvasR t id st
  | .createCv body => createCanvasR t body st now
  | .updateCv id body => updateCanvasR t id body st now
  | .deleteCv id => deleteCanvasR t id st now
  | .seedOp body => seedR t body st now

-- ─── Basic store lemmas ───

theorem lookupStore_eraseKeySt_self (s : List (SPath × StoredVal)) (p : SPath) :
    lookupStore (eraseKeySt s p) p = none := by
  induction s with
  | nil => rfl
  | cons e rest ih =>
    obtain ⟨q, v⟩ := e
    by_cases h : q = p
    · simp [eraseKeySt, h, ih]
    · simp [eraseKeySt, lookupStore, h, ih]

theorem lookupStore_eraseKeySt_ne (s : List (SPath × StoredVal)) (p q : SPath)
    (h : q ≠ p) : lookupStore (eraseKeySt s p) q = lookupStore s q := by
  have h2 : p ≠ q := fun hh => h hh.symm
  induction s with
  | nil => rfl
  | cons e rest ih =>
    obtain ⟨q0, v⟩ := e
    by_cases h0 : q0 = p
    · subst h0
      simp [eraseKeySt, lookupStore, h2, ih]
    · by_cases h1 : q0 = q
      · subst h1
        simp [eraseKeySt, lookupStore, h0, h]
      · simp [eraseKeySt, lookupStore, h0, h1, ih]

theorem lookupStore_storePut_self (s : List (SPath × StoredVal)) (p : SPath)
    (v : StoredVal) : lookupStore (storePut s p v) p = some v := by
  simp [storePut, lookupStore]

theorem lookupStore_storePut_ne (s : List (SPath × StoredVal)) (p q : SPath)
    (v : StoredVal) (h : q ≠ p) :
    lookupStore (storePut s p v) q = lookupStore s q := by
  have : p ≠ q := fun hh => h hh.symm
  simp [storePut, lookupStore, this, lookupStore_eraseKeySt_ne s p q h]

theorem writeJSON_cache (p : SPath) (v : JVal) (st : St) :
    (writeJSON p v st).cache = st.cache := rfl

theorem offloadNodeData_cache (nv : Option JVal) (t cid : String) (st : St) :
    ((offloadNodeData nv t cid st).2).cache = st.cache := by
  match nv with
  | none => rfl
  | some .null => rfl
  | some (.bool b) => rfl
  | some (.num n) => rfl
  | some (.str s) => rfl
  | some (.obj fs) => rfl
  | some (.arr ns) =>
    show (if (offloadAux [] ns).1.isEmpty then st
          else writeJSON (bundlePath t cid) (.obj (offloadAux [] ns).1) st).cache = st.cache
    by_cases h : (offloadAux [] ns).1.isEmpty <;> simp [h, writeJSON_cache]

theorem offloadNodeData_store_ne (nv : Option JVal) (t cid : String) (st : St)
    (q : SPath) (h : q ≠ bundlePath t cid) :
    lookupStore ((offloadNodeData nv t cid st).2).store q = lookupStore st.store q := by
  match nv with
  | none => rfl
  | some .null => rfl
  | some (.bool b) => rfl
  | some (.num n) => rfl
  | some (.str s) => rfl
  | some (.obj fs) => rfl
  | some (.arr ns) =>
    show lookupStore (if (offloadAux [] ns).1.isEmpty then st
          else writeJSON (bundlePath t cid) (.obj (offloadAux [] ns).1) st).store q
        = lookupStore st.store q
    by_cases he : (offloadAux [] ns).1.isEmpty
    · simp [he]
    · simp [he, writeJSON, lookupStore_storePut_ne _ _ _ _ h]

/-- The outcome of `readIndex` depends only on the cache, the stored index
document and the clock. -/
theorem readIndex_fst_congr (t ty : String) (st1 st2 : St) (now : Int)
    (hc : st2.cache = st1.cache)
    (hs : lookupStore st2.store (idxPath t ty) = lookupStore st1.store (idxPath t ty)) :
    (readIndex t ty st2 now).1 = (readIndex t ty st1 now).1 := by
  unfold readIndex readIndexMiss readJSON
  rw [hc, hs]
  rcases cacheGet st1.cache (idxCacheKey t ty) now with _ | c
  · rcases lookupStore st1.store (idxPath t ty) with _ | v
    · rfl
    · cases v <;> rfl
  · by_cases ht : truthy c
    · simp [ht]
    · rcases lookupStore st1.store (idxPath t ty) with _ | v
      · simp [ht]
      · cases v <;> simp [ht]

-- ─── Claim C7 ───

theorem offloadAux_no_data (ns : List JVal)
    (h : ∀ n ∈ ns, (getF n "data").isNone = true) :
    ∀ b, offloadAux b ns = (b, ns) := by
  induction ns with
  | nil => intro b; rfl
  | cons n rest ih =>
    intro b
    have hn := h n (by simp)
    have hr : ∀ m ∈ rest, (getF m "data").isNone = true :=
      fun m hm => h m (by simp [hm])
    cases hg : getF n "data" with
    | some v => rw [hg] at hn; simp at hn
    | none => simp [offloadAux, hg, ih hr b]

/-- Claim C7: when no node carries a `data` field, `offloadNodeData`
leaves the whole state untouched — in particular no bundle document is
created for the canvas. -/
theorem offload_no_data_is_noop (ns : List JVal) (t cid : String) (st : St)
    (h : ns.all (fun n => (getF n "data").isNone) = true) :
    offloadNodeData (some (.arr ns)) t cid st = (some (.arr ns), st) := by
  have h' : ∀ n ∈ ns, (getF n "data").isNone = true := by
    simpa [List.all_eq_true] using h
  have haux : offloadAux [] ns = ([], ns) := offloadAux_no_data ns h' []
  simp [offloadNodeData, haux]

theorem offload_no_data_is_noop_witness :
    (([JVal.obj [("id", JVal.str "a")], JVal.obj [("x", JVal.num 3)]].all
        (fun n => (getF n "data").isNone)) = true) ∧
    offloadNodeData (some (.arr [JVal.obj [("id", JVal.str "a")],
        JVal.obj [("x", JVal.num 3)]])) "u" "c" emptySt
      = (some (.arr [JVal.obj [("id", JVal.str "a")],
          JVal.obj [("x", JVal.num 3)]]), emptySt) :=
  ⟨rfl, offload_no_data_is_noop _ "u" "c" emptySt rfl⟩

-- ─── Claim C3 (code bug) ───

def c3Nodes : List JVal :=
  [.obj [("id", .str "n1"), ("_dataRef", .str "u/canvas-data/c/n1.json")],
   .obj [("id", .str "n2")]]

/-- Claim C3, evaluated at its failing input: with no bundle stored, a node
whose `_dataRef` file is absent ends with `data = null` (readJSON answers
null without throwing, so the catch branch never runs), and a node with
neither `data` nor `_dataRef` is left without any `data` field — neither
receives the safe default payload the claim requires.  (The per-node
isolation half of the claim does hold: the second node is still
processed.) -/
theorem hydrate_missing_data_not_defaulted :
    (hydrateNodeData (some (.arr c3Nodes)) "u" "c" emptySt).1
      = .ok (some (.arr [.obj [("id", .str "n1"), ("data", .null)],
                         .obj [("id", .str "n2")]])) ∧
    getF (.obj [("id", .str "n1"), ("data", .null)]) "data" = some .null ∧
    getF (.obj [("id", .str "n2")]) "data" = none :=
  ⟨rfl, rfl, rfl⟩

-- ─── Claim C2 (code bug) ───

def c2Bundle : JVal := .obj [("n1", .obj [("type", .str "text"), ("title", .str "A")])]

def c2CanvasDoc : JVal :=
  .obj [("id", .str "C1"), ("workspaceId", .str "W1"),
        ("nodes", .arr [.obj [("id", .str "n1")]])]

def c2Meta : JVal := .obj [("id", .str "C1"), ("workspaceId", .str "W1")]

def c2WsDoc : JVal := .obj [("id", .str "W1"), ("name", .str "Demo")]

def c2St0 : St :=
  ⟨[(["u", "workspaces", "W1.json"], .valid c2WsDoc),
    (["u", "canvases", "C1.json"], .valid c2CanvasDoc),
    (["u", "canvas-data", "C1.json"], .valid c2Bundle),
    (["u", "canvases-index.json"], .valid (.arr [c2Meta])),
    (["u", "workspaces-index.json"], .valid (.arr [c2WsDoc]))], [], []⟩

def c2Run : Resp × St := deleteWorkspaceR "u" "W1" c2St0 0

/-- Claim C2, evaluated at its failing input: deleting workspace W1, whose
only child canvas C1 has its node bundle stored at u/canvas-data/C1.json,
succeeds, removes the canvas document and empties the canvas index — but
the bundle document is still present afterwards, because the route only
bulk-deletes the legacy per-node directory u/canvas-data/C1/ and never
deletes the bundle file itself (unlike the canvas delete route, which
deletes both). -/
theorem deleteWorkspace_leaves_bundle_behind :
    c2Run.1 = .ok okTrue ∧
    lookupStore c2Run.2.store ["u", "canvas-data", "C1.json"] = some (.valid c2Bundle) ∧
    lookupStore c2Run.2.store ["u", "canvases", "C1.json"] = none ∧
    lookupStore c2Run.2.store ["u", "canvases-index.json"] = some (.valid (.arr [])) ∧
    lookupStore c2Run.2.store ["u", "workspaces", "W1.json"] = none ∧
    lookupStore c2Run.2.store ["u", "workspaces-index.json"] = some (.valid (.arr [])) :=
  ⟨rfl, rfl, rfl, rfl, rfl, rfl⟩

-- ─── Index lemmas shared by C5 and C6 ───

theorem writeIndex_lookup_self (t ty : String) (items : JVal) (st : St) (now : Int) :
    lookupStore (writeIndex t ty items st now).store (idxPath t ty)
      = some (.valid items) := by
  simp [writeIndex, writeJSON, lookupStore_storePut_self]

theorem cacheGet_cacheSet_self (c : List (String × (JVal × Int))) (key : String)
    (d : JVal) (now0 now1 : Int) :
    cacheGet (cacheSet c key d now0) key now1
      = if now1 - now0 < cacheTTL then some d else none := by
  simp [cacheGet, cacheSet]

/-- After a `writeIndex`, a later `readIndex` answers the written value no
matter whether it hits the refreshed cache or misses to storage. -/
theorem readIndex_after_writeIndex (t ty : String) (items : JVal) (st : St)
    (now0 now1 : Int) (ht : truthy items = true) :
    (readIndex t ty (writeIndex t ty items st now0) now1).1 = .ok items := by
  unfold readIndex
  have hc : (writeIndex t ty items st now0).cache
      = cacheSet (writeJSON (idxPath t ty) items st).cache (idxCacheKey t ty) items now0 := rfl
  rw [hc, cacheGet_cacheSet_self]
  by_cases httl : now1 - now0 < cacheTTL
  · simp [httl, ht]
  · simp only [httl, if_neg, ite_false]
    unfold readIndexMiss readJSON
    have hl : lookupStore (writeIndex t ty items st now0).store (idxPath t ty)
        = some (.valid items) := writeIndex_lookup_self t ty items st now0
    rw [hl]
    simp [orEmptyArr, ht]

/-- The predicate the index helpers use to locate the entry of `e`. -/
def idMatch (e : JVal) (i : JVal) : Bool := jsStrictEq (getF i "id") (getF e "id")

/-- The new index contents computed by one `upsertIndex`. -/
def upsertItems (items : List JVal) (e : JVal) : List JVal :=
  let idx := items.findIdx (idMatch e)
  if idx < items.length then items.set idx e else items ++ [e]

theorem upsertIndex_spec (t ty : String) (e : JVal) (st : St) (now : Int)
    (items : List JVal)
    (hread : (readIndex t ty st now).1 = .ok (.arr items)) :
    upsertIndex t ty e st now
      = (.ok (), writeIndex t ty (.arr (upsertItems items e))
          (readIndex t ty st now).2 now) := by
  unfold upsertIndex upsertItems idMatch
  rcases hpair : readIndex t ty st now with ⟨r, st1⟩
  rw [hpair] at hread
  simp only at hread
  subst hread
  simp

-- ─── Claim C6 ───

/-- Claim C6: `removeFromIndex` leaves no entry carrying the removed id,
and when no entry carried it the index contents are written back
unchanged (no error, no duplication). -/
theorem removeFromIndex_total (t ty : String) (id : JVal) (st0 : St)
    (now : Int) (items0 : List JVal)
    (hread : (readIndex t ty st0 now).1 = .ok (.arr items0)) :
    ∃ st1 items1,
      removeFromIndex t ty id st0 now = (.ok (), st1) ∧
      lookupStore st1.store (idxPath t ty) = some (.valid (.arr items1)) ∧
      (∀ i ∈ items1, jsStrictEq (getF i "id") (some id) = false) ∧
      ((∀ i ∈ items0, jsStrictEq (getF i "id") (some id) = false) → items1 = items0) := by
  rcases hpair : readIndex t ty st0 now with ⟨r, stR⟩
  rw [hpair] at hread
  simp only at hread
  subst hread
  refine ⟨writeIndex t ty
      (.arr (items0.filter (fun i => !(jsStrictEq (getF i "id") (some id))))) stR now,
    items0.filter (fun i => !(jsStrictEq (getF i "id") (some id))), ?_, ?_, ?_, ?_⟩
  · unfold removeFromIndex
    rw [hpair]
  · exact writeIndex_lookup_self t ty _ stR now
  · intro i hi
    have := (List.mem_filter.mp hi).2
    simpa using this
  · intro hall
    apply List.filter_eq_self.mpr
    intro a ha
    simp [hall a ha]

def c6Entry : JVal := .obj [("id", .str "a"), ("title", .str "T")]

def c6St0 : St := ⟨[(["u", "canvases-index.json"], .valid (.arr [c6Entry]))], [], []⟩

theorem removeFromIndex_total_witness :
    ((readIndex "u" "canvases" c6St0 0).1 = .ok (.arr [c6Entry])) ∧
    (∃ st1 items1,
      removeFromIndex "u" "canvases" (.str "b") c6St0 0 = (.ok (), st1) ∧
      lookupStore st1.store (idxPath "u" "canvases") = some (.valid (.arr items1)) ∧
      (∀ i ∈ items1, jsStrictEq (getF i "id") (some (.str "b")) = false) ∧
      ((∀ i ∈ [c6Entry], jsStrictEq (getF i "id") (some (.str "b")) = false) →
        items1 = [c6Entry])) :=
  ⟨rfl, removeFromIndex_total "u" "canvases" (.str "b") c6St0 0 [c6Entry] rfl⟩

-- ─── Claim C5 ───

theorem jsStrictEq_refl_prim (o : Option JVal) (h : isPrimOpt o = true) :
    jsStrictEq o o = true := by
  match o with
  | none => rfl
  | some .null => rfl
  | some (.bool b) => simp [jsStrictEq]
  | some (.num n) => simp [jsStrictEq]
  | some (.str s) => simp [jsStrictEq]
  | some (.arr a) => simp [isPrimOpt] at h
  | some (.obj a) => simp [isPrimOpt] at h

theorem countP_set_matching (p : JVal → Bool) (x : JVal) (hx : p x = true) :
    ∀ (l : List JVal) (i : Nat) (h : i < l.length),
      p (l.get ⟨i, h⟩) = true → (l.set i x).countP p = l.countP p := by
  intro l
  induction l with
  | nil => intro i h; simp at h
  | cons a rest ih =>
    intro i h hp
    cases i with
    | zero =>
      simp only [List.get] at hp
      simp [List.set, List.countP_cons, hx, hp]
    | succ j =>
      have hj : j < rest.length := by simpa using h
      simp only [List.get] at hp
      simp [List.set, List.countP_cons, ih j hj hp]

theorem findIdx_not_found (p : JVal → Bool) (l : List JVal)
    (h : ¬ l.findIdx p < l.length) : ∀ x ∈ l, p x = false := by
  intro x hx
  by_contra hpx
  exact h (List.findIdx_lt_length_of_exists ⟨x, hx, by simpa using hpx⟩)

theorem upsertItems_countP (e : JVal) (l : List JVal)
    (hpe : idMatch e e = true) (hc : l.countP (idMatch e) ≤ 1) :
    (upsertItems l e).countP (idMatch e) = 1 := by
  unfold upsertItems
  by_cases hlt : l.findIdx (idMatch e) < l.length
  · have hmem : idMatch e (l.get ⟨l.findIdx (idMatch e), hlt⟩) = true := by
      simpa using @List.findIdx_getElem _ _ _ hlt
    have hpos : 0 < l.countP (idMatch e) :=
      List.countP_pos_iff.mpr ⟨l.get ⟨l.findIdx (idMatch e), hlt⟩,
        List.get_mem l _ hlt, hmem⟩
    have hone : l.countP (idMatch e) = 1 := le_antisymm hc hpos
    rw [if_pos hlt, countP_set_matching (idMatch e) e hpe l _ hlt hmem, hone]
  · have hzero : l.countP (idMatch e) = 0 :=
      List.countP_eq_zero.mpr (by
        intro a ha
        simpa using findIdx_not_found (idMatch e) l hlt a ha)
    rw [if_neg hlt, List.countP_append, hzero]
    simp [List.countP_cons, hpe]

theorem upsertItems_length_stable (e : JVal) (l : List JVal)
    (hpos : 0 < l.countP (idMatch e)) :
    (upsertItems l e).length = l.length := by
  unfold upsertItems
  obtain ⟨x, hx, hpx⟩ := List.countP_pos_iff.mp hpos
  have hlt : l.findIdx (idMatch e) < l.length :=
    List.findIdx_lt_length_of_exists ⟨x, hx, hpx⟩
  rw [if_pos hlt, List.length_set]

/-- Claim C5: upserting the same entry twice keeps the stored index length
unchanged relative to the state after the first call, and the result holds
exactly one entry with that id.  The entry id is a primitive (so strict
equality is value equality) and the index read by the first call holds at
most one entry with the id — the invariant every index maintained by this
code satisfies. -/
theorem upsertIndex_twice_idempotent (t ty : String) (e : JVal) (st0 : St)
    (now0 now1 : Int) (items0 : List JVal)
    (hread : (readIndex t ty st0 now0).1 = .ok (.arr items0))
    (hprim : isPrimOpt (getF e "id") = true)
    (hcount : items0.countP (idMatch e) ≤ 1) :
    ∃ st1 st2 items1 items2,
      upsertIndex t ty e st0 now0 = (.ok (), st1) ∧
      upsertIndex t ty e st1 now1 = (.ok (), st2) ∧
      lookupStore st1.store (idxPath t ty) = some (.valid (.arr items1)) ∧
      lookupStore st2.store (idxPath t ty) = some (.valid (.arr items2)) ∧
      items2.length = items1.length ∧
      items2.countP (idMatch e) = 1 := by
  have hpe : idMatch e e = true := jsStrictEq_refl_prim _ hprim
  have h1 := upsertIndex_spec t ty e st0 now0 items0 hread
  set items1 := upsertItems items0 e with hi1
  have hc1 : items1.countP (idMatch e) = 1 := upsertItems_countP e items0 hpe hcount
  have hread1 : (readIndex t ty
      (writeIndex t ty (.arr items1) (readIndex t ty st0 now0).2 now0) now1).1
      = .ok (.arr items1) :=
    readIndex_after_writeIndex t ty (.arr items1) _ now0 now1 rfl
  have h2 := upsertIndex_spec t ty e
    (writeIndex t ty (.arr items1) (readIndex t ty st0 now0).2 now0) now1 items1 hread1
  set items2 := upsertItems items1 e with hi2
  refine ⟨_, _, items1, items2, h1, h2, ?_, ?_, ?_, ?_⟩
  · exact writeIndex_lookup_self t ty _ _ now0
  · exact writeIndex_lookup_self t ty _ _ now1
  · exact upsertItems_length_stable e items1 (by rw [hc1]; exact Nat.one_pos)
  · exact upsertItems_countP e items1 hpe (by rw [hc1])

def c5Entry : JVal := .obj [("id", .str "a"), ("title", .str "T")]

theorem upsertIndex_twice_idempotent_witness :
    ((readIndex "u" "canvases" emptySt 0).1 = .ok (.arr [])) ∧
    (isPrimOpt (getF c5Entry "id") = true) ∧
    (([] : List JVal).countP (idMatch c5Entry) ≤ 1) ∧
    (∃ st1 st2 items1 items2,
      upsertIndex "u" "canvases" c5Entry emptySt 0 = (.ok (), st1) ∧
      upsertIndex "u" "canvases" c5Entry st1 1 = (.ok (), st2) ∧
      lookupStore st1.store (idxPath "u" "canvases") = some (.valid (.arr items1)) ∧
      lookupStore st2.store (idxPath "u" "canvases") = some (.valid (.arr items2)) ∧
      items2.length = items1.length ∧
      items2.countP (idMatch c5Entry) = 1) :=
  ⟨rfl, rfl, by decide,
   upsertIndex_twice_idempotent "u" "canvases" c5Entry emptySt 0 1 [] rfl rfl (by decide)⟩

-- ─── Claim C8 ───

theorem readIndex_store_eq (t ty : String) (st : St) (now : Int) :
    ((readIndex t ty st now).2).store = st.store := by
  unfold readIndex readIndexMiss readJSON
  rcases cacheGet st.cache (idxCacheKey t ty) now with _ | c
  · rcases lookupStore st.store (idxPath t ty) with _ | v
    · rfl
    · cases v <;> rfl
  · by_cases ht : truthy c
    · simp [ht]
    · rcases lookupStore st.store (idxPath t ty) with _ | v
      · simp [ht]
      · cases v <;> simp [ht]

theorem writeIndex_store_ne (t ty : String) (items : JVal) (st : St) (now : Int)
    (q : SPath) (h : q ≠ idxPath t ty) :
    lookupStore (writeIndex t ty items st now).store q = lookupStore st.store q := by
  show lookupStore (storePut st.store (idxPath t ty) (.valid items)) q = lookupStore st.store q
  exact lookupStore_storePut_ne _ _ _ _ h

theorem getCanvas_missing (t id : String) (st : St)
    (hc : lookupStore st.store [t, "canvases", id ++ ".json"] = none) :
    (getCanvasR t id st).1 = .notFound := by
  unfold getCanvasR readJSON
  rw [hc]
  rfl

theorem offloadNodeData_none (t cid : String) (st : St) :
    offloadNodeData none t cid st = (none, st) := rfl

theorem setFOpt_none (c : JVal) (k : String) : setFOpt c k none = c := rfl

theorem spreadFieldsO_none : spreadFieldsO none = [] := rfl

theorem updateCanvas_missing (t id : String) (cbody : JVal) (st : St) (now : Int)
    (xs : List JVal)
    (hc : lookupStore st.store [t, "canvases", id ++ ".json"] = none)
    (hci : (readIndex t "canvases" st now).1 = .ok (.arr xs))
    (hnodes : getF cbody "nodes" = none) :
    ∃ st4, updateCanvasR t id cbody st now = (.ok okTrue, st4) ∧
      lookupStore st4.store [t, "canvases", id ++ ".json"]
        = some (.valid (.obj (mergeFields [] (spreadFieldsV cbody)))) := by
  have hne : ([t, "canvases", id ++ ".json"] : SPath) ≠ idxPath t "canvases" := by
    simp [idxPath]
  have hne2 : idxPath t "canvases" ≠ ([t, "canvases", id ++ ".json"] : SPath) :=
    fun hh => hne hh.symm
  have hcache3 : (writeJSON [t, "canvases", id ++ ".json"]
      (.obj (mergeFields [] (spreadFieldsV cbody)))
      { st with log := st.log ++ [[t, "canvases", id ++ ".json"]] }).cache = st.cache := rfl
  have hidx3 : lookupStore (writeJSON [t, "canvases", id ++ ".json"]
      (.obj (mergeFields [] (spreadFieldsV cbody)))
      { st with log := st.log ++ [[t, "canvases", id ++ ".json"]] }).store
        (idxPath t "canvases")
      = lookupStore st.store (idxPath t "canvases") :=
    lookupStore_storePut_ne _ _ _ _ hne2
  have hci3 : (readIndex t "canvases" (writeJSON [t, "canvases", id ++ ".json"]
      (.obj (mergeFields [] (spreadFieldsV cbody)))
      { st with log := st.log ++ [[t, "canvases", id ++ ".json"]] }) now).1
      = .ok (.arr xs) := by
    rw [readIndex_fst_congr t "canvases" st _ now hcache3 hidx3]
    exact hci
  have hup := upsertIndex_spec t "canvases"
    (canvasMetaForIndex (.obj (mergeFields [] (spreadFieldsV cbody))))
    (writeJSON [t, "canvases", id ++ ".json"]
      (.obj (mergeFields [] (spreadFieldsV cbody)))
      { st with log := st.log ++ [[t, "canvases", id ++ ".json"]] }) now xs hci3
  have hroute : updateCanvasR t id cbody st now
      = (.ok okTrue, writeIndex t "canvases"
          (.arr (upsertItems xs (canvasMetaForIndex
            (.obj (mergeFields [] (spreadFieldsV cbody))))))
          (readIndex t "canvases" (writeJSON [t, "canvases", id ++ ".json"]
            (.obj (mergeFields [] (spreadFieldsV cbody)))
            { st with log := st.log ++ [[t, "canvases", id ++ ".json"]] }) now).2 now) := by
    unfold updateCanvasR
    simp only [hnodes, offloadNodeData_none, setFOpt_none]
    unfold readJSON
    simp only [hc, spreadFieldsO_none, hup]
  refine ⟨_, hroute, ?_⟩
  rw [writeIndex_store_ne _ _ _ _ _ _ hne, readIndex_store_eq]
  exact lookupStore_storePut_self _ _ _

theorem updateWorkspace_missing (t id : String) (wbody : JVal) (st : St) (now : Int)
    (ys : List JVal)
    (hw : lookupStore st.store [t, "workspaces", id ++ ".json"] = none)
    (hwi : (readIndex t "workspaces" st now).1 = .ok (.arr ys)) :
    ∃ st3, updateWorkspaceR t id wbody st now = (.ok okTrue, st3) ∧
      lookupStore st3.store [t, "workspaces", id ++ ".json"]
        = some (.valid (.obj (mergeFields [] (spreadFieldsV wbody)))) := by
  have hne : ([t, "workspaces", id ++ ".json"] : SPath) ≠ idxPath t "workspaces" := by
    simp [idxPath]
  have hne2 : idxPath t "workspaces" ≠ ([t, "workspaces", id ++ ".json"] : SPath) :=
    fun hh => hne hh.symm
  have hcache3 : (writeJSON [t, "workspaces", id ++ ".json"]
      (.obj (mergeFields [] (spreadFieldsV wbody)))
      { st with log := st.log ++ [[t, "workspaces", id ++ ".json"]] }).cache = st.cache := rfl
  have hidx3 : lookupStore (writeJSON [t, "workspaces", id ++ ".json"]
      (.obj (mergeFields [] (spreadFieldsV wbody)))
      { st with log := st.log ++ [[t, "workspaces", id ++ ".json"]] }).store
        (idxPath t "workspaces")
      = lookupStore st.store (idxPath t "workspaces") :=
    lookupStore_storePut_ne _ _ _ _ hne2
  have hwi3 : (readIndex t "workspaces" (writeJSON [t, "workspaces", id ++ ".json"]
      (.obj (mergeFields [] (spreadFieldsV wbody)))
      { st with log := st.log ++ [[t, "workspaces", id ++ ".json"]] }) now).1
      = .ok (.arr ys) := by
    rw [readIndex_fst_congr t "workspaces" st _ now hcache3 hidx3]
    exact hwi
  have hup := upsertIndex_spec t "workspaces"
    (.obj (mergeFields [] (spreadFieldsV wbody)))
    (writeJSON [t, "workspaces", id ++ ".json"]
      (.obj (mergeFields [] (spreadFieldsV wbody)))
      { st with log := st.log ++ [[t, "workspaces", id ++ ".json"]] }) now ys hwi3
  have hroute : updateWorkspaceR t id wbody st now
      = (.ok okTrue, writeIndex t "workspaces"
          (.arr (upsertItems ys (.obj (mergeFields [] (spreadFieldsV wbody)))))
          (readIndex t "workspaces" (writeJSON [t, "workspaces", id ++ ".json"]
            (.obj (mergeFields [] (spreadFieldsV wbody)))
            { st with log := st.log ++ [[t, "workspaces", id ++ ".json"]] }) now).2 now) := by
    unfold updateWorkspaceR readJSON
    simp only [hw, spreadFieldsO_none, hup]
  refine ⟨_, hroute, ?_⟩
  rw [writeIndex_store_ne _ _ _ _ _ _ hne, readIndex_store_eq]
  exact lookupStore_storePut_self _ _ _

/-- Claim C8: on a missing id, `getCanvas` answers a strict 404 without
crashing, while `updateCanvas` and `updateWorkspace` proceed upsert-like:
the supplied partial fields are shallow-merged into an empty document and
the merged result is written.  (The canvas body carries no `nodes` field,
so the claim is exercised on pure partial-field updates; the index
documents read by the two updates are well-formed arrays.) -/
theorem missing_id_semantics (t id : String) (cbody wbody : JVal) (st : St)
    (now : Int) (xs ys : List JVal)
    (hc : lookupStore st.store [t, "canvases", id ++ ".json"] = none)
    (hw : lookupStore st.store [t, "workspaces", id ++ ".json"] = none)
    (hci : (readIndex t "canvases" st now).1 = .ok (.arr xs))
    (hwi : (readIndex t "workspaces" st now).1 = .ok (.arr ys))
    (hnodes : getF cbody "nodes" = none) :
    (getCanvasR t id st).1 = .notFound ∧
    (∃ st4, updateCanvasR t id cbody st now = (.ok okTrue, st4) ∧
      lookupStore st4.store [t, "canvases", id ++ ".json"]
        = some (.valid (.obj (mergeFields [] (spreadFieldsV cbody))))) ∧
    (∃ st3, updateWorkspaceR t id wbody st now = (.ok okTrue, st3) ∧
      lookupStore st3.store [t, "workspaces", id ++ ".json"]
        = some (.valid (.obj (mergeFields [] (spreadFieldsV wbody))))) :=
  ⟨getCanvas_missing t id st hc,
   updateCanvas_missing t id cbody st now xs hc hci hnodes,
   updateWorkspace_missing t id wbody st now ys hw hwi⟩

theorem missing_id_semantics_witness :
    (lookupStore emptySt.store ["u", "canvases", "x.json"] = none) ∧
    (lookupStore emptySt.store ["u", "workspaces", "x.json"] = none) ∧
    ((readIndex "u" "canvases" emptySt 0).1 = .ok (.arr [])) ∧
    ((readIndex "u" "workspaces" emptySt 0).1 = .ok (.arr [])) ∧
    (getF (.obj [("title", .str "T")]) "nodes" = none) ∧
    ((getCanvasR "u" "x" emptySt).1 = .notFound ∧
     (∃ st4, updateCanvasR "u" "x" (.obj [("title", .str "T")]) emptySt 0
          = (.ok okTrue, st4) ∧
       lookupStore st4.store ["u", "canvases", "x.json"]
         = some (.valid (.obj (mergeFields []
             (spreadFieldsV (.obj [("title", .str "T")])))))) ∧
     (∃ st3, updateWorkspaceR "u" "x" (.obj [("name", .str "N")]) emptySt 0
          = (.ok okTrue, st3) ∧
       lookupStore st3.store ["u", "workspaces", "x.json"]
         = some (.valid (.obj (mergeFields []
             (spreadFieldsV (.obj [("name", .str "N")]))))))) :=
  ⟨rfl, rfl, rfl, rfl, rfl,
   missing_id_semantics "u" "x" (.obj [("title", .str "T")])
     (.obj [("name", .str "N")]) emptySt 0 [] [] rfl rfl rfl rfl rfl⟩

-- ─── Claim C4 ───

theorem lookupF_setFields_self (fs : List (String × JVal)) (k : String) (v : JVal) :
    lookupF (setFields fs k v) k = some v := by
  induction fs with
  | nil => simp [setFields, lookupF]
  | cons e rest ih =>
    obtain ⟨k0, v0⟩ := e
    by_cases h : k0 = k
    · simp [setFields, lookupF, h]
    · simp [setFields, lookupF, h, ih]

theorem lookupF_setFields_ne (fs : List (String × JVal)) (k k2 : String) (v : JVal)
    (h : k2 ≠ k) : lookupF (setFields fs k v) k2 = lookupF fs k2 := by
  have h2 : k ≠ k2 := fun hh => h hh.symm
  induction fs with
  | nil => simp [setFields, lookupF, h2]
  | cons e rest ih =>
    obtain ⟨k0, v0⟩ := e
    by_cases h0 : k0 = k
    · subst h0
      simp [setFields, lookupF, h2]
    · simp [setFields, lookupF, h0, ih]

theorem lookupF_removeKey_self (fs : List (String × JVal)) (k : String) :
    lookupF (removeKey fs k) k = none := by
  induction fs with
  | nil => rfl
  | cons e rest ih =>
    obtain ⟨k0, v0⟩ := e
    by_cases h : k0 = k
    · simp [removeKey, h, ih]
    · simp [removeKey, lookupF, h, ih]

theorem lookupF_removeKey_ne (fs : List (String × JVal)) (k k2 : String)
    (h : k2 ≠ k) : lookupF (removeKey fs k) k2 = lookupF fs k2 := by
  have h2 : k ≠ k2 := fun hh => h hh.symm
  induction fs with
  | nil => rfl
  | cons e rest ih =>
    obtain ⟨k0, v0⟩ := e
    by_cases h0 : k0 = k
    · subst h0
      simp [removeKey, lookupF, h2, ih]
    · by_cases h1 : k0 = k2
      · simp [removeKey, lookupF, h0, h1, h]
      · simp [removeKey, lookupF, h0, h1, ih]

theorem getF_delF_self (x : JVal) (k : String) : getF (delF x k) k = none := by
  cases x <;> simp [delF, getF, lookupF_removeKey_self]

theorem getF_delF_ne (x : JVal) (k k2 : String) (h : k2 ≠ k) :
    getF (delF x k) k2 = getF x k2 := by
  cases x <;> simp [delF, getF, lookupF_removeKey_ne _ _ _ h]

theorem getF_setF_self_obj (fs : List (String × JVal)) (k : String) (v : JVal) :
    getF (setF (.obj fs) k v) k = some v := by
  simp [setF, getF, lookupF_setFields_self]

theorem getF_setF_ne (x : JVal) (k k2 : String) (v : JVal) (h : k2 ≠ k) :
    getF (setF x k v) k2 = getF x k2 := by
  cases x <;> simp [setF, getF, lookupF_setFields_ne _ _ _ _ h]

/-- A node the legacy fallback can fully hydrate from the given state: a
non-empty string `_dataRef` whose target parses. -/
def legacyReady (st : St) (n : JVal) : Bool :=
  match getF n "_dataRef" with
  | some (.str ref) =>
    !(ref == "") &&
      (match lookupStore st.store (strToPath ref) with
       | some (.valid _) => true
       | _ => false)
  | _ => false

theorem legacyReady_elim (st : St) (n : JVal) (h : legacyReady st n = true) :
    ∃ ref d, getF n "_dataRef" = some (.str ref) ∧ truthy (.str ref) = true ∧
      lookupStore st.store (strToPath ref) = some (.valid d) := by
  unfold legacyReady at h
  rcases hg : getF n "_dataRef" with _ | r
  · rw [hg] at h
    exact absurd h (by simp)
  · rw [hg] at h
    cases r with
    | str ref =>
      simp only [Bool.and_eq_true, Bool.not_eq_true', beq_eq_false_iff_ne] at h
      obtain ⟨h1, h2⟩ := h
      rcases hl : lookupStore st.store (strToPath ref) with _ | v
      · rw [hl] at h2
        simp at h2
      · cases v with
        | valid d =>
          exact ⟨ref, d, rfl, by simp [truthy, h1], hl⟩
        | corrupt =>
          rw [hl] at h2
          simp at h2
    | null => simp at h
    | bool b => simp at h
    | num m => simp at h
    | arr a => simp at h
    | obj o => simp at h

theorem hydrateLegacy_cons_ok (n : JVal) (rest : List JVal) (st : St)
    (ref : String) (d : JVal)
    (hg : getF n "_dataRef" = some (.str ref)) (htr : truthy (.str ref) = true)
    (hl : lookupStore st.store (strToPath ref) = some (.valid d)) :
    hydrateLegacy (n :: rest) st
      = ((delF (setF n "data" d) "_dataRef") ::
          (hydrateLegacy rest { st with log := st.log ++ [strToPath ref] }).1,
         (hydrateLegacy rest { st with log := st.log ++ [strToPath ref] }).2) := by
  conv_lhs => unfold hydrateLegacy readJSON
  simp only [hg, htr, if_true, hl]
  rfl

/-- Pointwise description of the legacy fallback on fully-ready nodes; the
store component never changes during hydration, so readiness is stated
against a fixed reference state. -/
theorem hydrateLegacy_spec (stO : St) : ∀ (ns : List JVal) (st : St),
    st.store = stO.store →
    (∀ n ∈ ns, legacyReady stO n = true) →
    (hydrateLegacy ns st).1.length = ns.length ∧
    (∀ (i : Nat) (n0 : JVal), ns[i]? = some n0 →
      ∃ ref d n2, (hydrateLegacy ns st).1[i]? = some n2 ∧
        getF n0 "_dataRef" = some (.str ref) ∧
        lookupStore stO.store (strToPath ref) = some (.valid d) ∧
        getF n2 "data" = some d ∧
        getF n2 "_dataRef" = none) := by
  intro ns
  induction ns with
  | nil =>
    intro st hs hall
    exact ⟨rfl, fun i n0 h0 => by simp at h0⟩
  | cons n rest ih =>
    intro st hs hall
    obtain ⟨ref, d, hg, htr, hl⟩ := legacyReady_elim stO n (hall n (by simp))
    have hl' : lookupStore st.store (strToPath ref) = some (.valid d) := by
      rw [hs]; exact hl
    have hcons := hydrateLegacy_cons_ok n rest st ref d hg htr hl'
    have hrest := ih { st with log := st.log ++ [strToPath ref] } hs
      (fun m hm => hall m (by simp [hm]))
    have hobj : ∃ fs, n = JVal.obj fs := by
      cases n with
      | obj fs => exact ⟨fs, rfl⟩
      | null => simp [getF] at hg
      | bool b => simp [getF] at hg
      | num m => simp [getF] at hg
      | str s => simp [getF] at hg
      | arr a => simp [getF] at hg
    obtain ⟨fs, hfs⟩ := hobj
    have hdata : getF (delF (setF n "data" d) "_dataRef") "data" = some d := by
      rw [getF_delF_ne _ _ _ (by decide), hfs, getF_setF_self_obj]
    have href2 : getF (delF (setF n "data" d) "_dataRef") "_dataRef" = none :=
      getF_delF_self _ _
    constructor
    · rw [hcons]
      simpa using hrest.1
    · intro i n0 h0
      cases i with
      | zero =>
        rw [List.getElem?_cons_zero] at h0
        obtain rfl : n = n0 := by injection h0
        refine ⟨ref, d, delF (setF n "data" d) "_dataRef", ?_, hg, hl, hdata, href2⟩
        rw [hcons]
        simp
      | succ j =>
        rw [List.getElem?_cons_succ] at h0
        obtain ⟨ref2, d2, n2, hn2, hga, hla, hda, hra⟩ := hrest.2 j n0 h0
        refine ⟨ref2, d2, n2, ?_, hga, hla, hda, hra⟩
        rw [hcons]
        simpa using hn2

/-- Claim C4: with no bundle document present and every node carrying a
non-empty `_dataRef` whose target file exists, hydration assigns each node
the data parsed from its referenced file and strips `_dataRef` from the
in-memory result. -/
theorem hydrate_legacy_fallback (t cid : String) (ns : List JVal) (st : St)
    (hb : lookupStore st.store (bundlePath t cid) = none)
    (hall : ns.all (legacyReady st) = true) :
    ∃ ns2, (hydrateNodeData (some (.arr ns)) t cid st).1 = .ok (some (.arr ns2)) ∧
      ns2.length = ns.length ∧
      (∀ (i : Nat) (n0 : JVal), ns[i]? = some n0 →
        ∃ ref d n2, ns2[i]? = some n2 ∧
          getF n0 "_dataRef" = some (.str ref) ∧
          lookupStore st.store (strToPath ref) = some (.valid d) ∧
          getF n2 "data" = some d ∧
          getF n2 "_dataRef" = none) := by
  have hall2 : ∀ n ∈ ns, legacyReady st n = true := by
    simpa [List.all_eq_true] using hall
  have hstep : (hydrateNodeData (some (.arr ns)) t cid st).1
      = .ok (some (.arr
          (hydrateLegacy ns { st with log := st.log ++ [bundlePath t cid] }).1)) := by
    conv_lhs => unfold hydrateNodeData readJSON
    simp only [hb]
    rfl
  obtain ⟨hlen, hpt⟩ := hydrateLegacy_spec st ns
    { st with log := st.log ++ [bundlePath t cid] } rfl hall2
  exact ⟨_, hstep, hlen, hpt⟩

def c4Node : JVal :=
  .obj [("id", .str "n1"), ("_dataRef", .str "u/canvas-data/c/n1.json")]

def c4St : St :=
  ⟨[(["u", "canvas-data", "c", "n1.json"], .valid (.str "hello"))], [], []⟩

theorem hydrate_legacy_fallback_witness :
    (lookupStore c4St.store (bundlePath "u" "c") = none) ∧
    ([c4Node].all (legacyReady c4St) = true) ∧
    (∃ ns2, (hydrateNodeData (some (.arr [c4Node])) "u" "c" c4St).1
        = .ok (some (.arr ns2)) ∧
      ns2.length = [c4Node].length ∧
      (∀ (i : Nat) (n0 : JVal), [c4Node][i]? = some n0 →
        ∃ ref d n2, ns2[i]? = some n2 ∧
          getF n0 "_dataRef" = some (.str ref) ∧
          lookupStore c4St.store (strToPath ref) = some (.valid d) ∧
          getF n2 "data" = some d ∧
          getF n2 "_dataRef" = none)) :=
  ⟨rfl, rfl, hydrate_legacy_fallback "u" "c" [c4Node] c4St rfl rfl⟩

-- ─── Claim C1 ───

def c1Nodes : List JVal :=
  [.obj [("id", .str "a"), ("data", .str "x")],
   .obj [("id", .str "b"), ("data", .str "")]]

def c1Off : Option JVal × St := offloadNodeData (some (.arr c1Nodes)) "u" "c" emptySt

/-- Claim C1 at a concrete input on which it fails: of two nodes, one with
data "x" and one with data "" (present but falsy), the offload moves only
the truthy payload.  The node document list that the canvas routes write
to storage still carries the `data` field of the second node, and
hydrating the stored result replaces that field with the safe default
instead of the original empty string — both halves of the round-trip
claim are violated. -/
theorem offload_roundtrip_counterexample :
    c1Off.1 = some (.arr [.obj [("id", .str "a")],
                          .obj [("id", .str "b"), ("data", .str "")]]) ∧
    getF (.obj [("id", .str "b"), ("data", .str "")]) "data" = some (.str "") ∧
    (hydrateNodeData c1Off.1 "u" "c" c1Off.2).1
      = .ok (some (.arr [.obj [("id", .str "a"), ("data", .str "x")],
                         .obj [("id", .str "b"), ("data", defaultNodeData)]])) ∧
    defaultNodeData ≠ .str "" :=
  ⟨rfl, rfl, rfl, fun h => JVal.noConfusion h⟩

theorem setFields_ne_nil (fs : List (String × JVal)) (k : String) (v : JVal) :
    setFields fs k v ≠ [] := by
  cases fs with
  | nil => simp [setFields]
  | cons e rest =>
    obtain ⟨k0, v0⟩ := e
    by_cases h : k0 = k <;> simp [setFields, h]

theorem foldl_setFields_ne_nil (ns : List JVal) :
    ∀ b : List (String × JVal), b ≠ [] →
      ns.foldl (fun acc n => setFields acc (nodeKey n) ((getF n "data").getD .null)) b ≠ [] := by
  induction ns with
  | nil => intro b hb; simpa using hb
  | cons n rest ih =>
    intro b hb
    simp only [List.foldl_cons]
    exact ih _ (setFields_ne_nil _ _ _)

theorem offloadAux_truthy (ns : List JVal)
    (h : ∀ n ∈ ns, truthyOpt (getF n "data") = true) :
    ∀ b, offloadAux b ns
      = (ns.foldl (fun acc n => setFields acc (nodeKey n) ((getF n "data").getD .null)) b,
         ns.map (fun n => delF n "data")) := by
  induction ns with
  | nil => intro b; rfl
  | cons n rest ih =>
    intro b
    have hn := h n (by simp)
    rcases hg : getF n "data" with _ | v
    · rw [hg] at hn
      simp [truthyOpt] at hn
    · rw [hg] at hn
      have htr : truthy v = true := hn
      conv_lhs => unfold offloadAux
      simp only [hg, htr, if_true, ih (fun m hm => h m (by simp [hm]))]
      simp [hg]

theorem lookupF_fold_fresh (ns : List JVal) (k : String)
    (h : ∀ n ∈ ns, nodeKey n ≠ k) :
    ∀ b, lookupF
        (ns.foldl (fun acc n => setFields acc (nodeKey n) ((getF n "data").getD .null)) b) k
      = lookupF b k := by
  induction ns with
  | nil => intro b; rfl
  | cons n rest ih =>
    intro b
    simp only [List.foldl_cons]
    rw [ih (fun m hm => h m (by simp [hm]))]
    exact lookupF_setFields_ne _ _ _ _ (fun hh => h n (by simp) hh.symm)

theorem bundle_lookup (ns : List JVal) :
    (ns.map nodeKey).Nodup →
    ∀ (b : List (String × JVal)) (i : Nat) (n0 : JVal), ns[i]? = some n0 →
      lookupF (ns.foldl
          (fun acc n => setFields acc (nodeKey n) ((getF n "data").getD .null)) b)
        (nodeKey n0) = some ((getF n0 "data").getD .null) := by
  induction ns with
  | nil => intro _ b i n0 h0; simp at h0
  | cons n rest ih =>
    intro hnd b i n0 h0
    have hnd2 : (nodeKey n ∉ rest.map nodeKey) ∧ (rest.map nodeKey).Nodup := by
      simpa [List.nodup_cons] using hnd
    cases i with
    | zero =>
      obtain rfl : n = n0 := by simpa using h0
      simp only [List.foldl_cons]
      rw [lookupF_fold_fresh rest (nodeKey n) ?hfresh]
      · exact lookupF_setFields_self _ _ _
      case hfresh =>
        intro m hm hmeq
        exact hnd2.1 (hmeq ▸ List.mem_map_of_mem nodeKey hm)
    | succ j =>
      simp only [List.getElem?_cons_succ] at h0
      simp only [List.foldl_cons]
      exact ih hnd2.2 _ j n0 h0

theorem hydrateNode1_restore (B : List (String × JVal)) (n0 : JVal)
    (fs0 : List (String × JVal)) (hfs : n0 = .obj fs0) (v : JVal)
    (htr : truthy v = true)
    (hb : lookupF B (nodeKey n0) = some v) :
    getF (hydrateNode1 (.obj B) (delF n0 "data")) "data" = some v := by
  have hkey : nodeKey (delF n0 "data") = nodeKey n0 := by
    unfold nodeKey
    rw [getF_delF_ne _ _ _ (by decide)]
  have hget : getF (.obj B) (nodeKey (delF n0 "data")) = some v := by
    rw [hkey]
    simpa [getF] using hb
  unfold hydrateNode1
  simp only [hget, htr, if_true]
  subst hfs
  simp only [delF]
  exact getF_setF_self_obj _ _ _

/-- Claim C1, amended to nodes whose `data` payloads are truthy (JS
truthiness is exactly the guard `if (node.data)` of the offload) and whose
ids are distinct: offloading strips every `data` field from the node list
that gets written to storage, writes the bundle, and hydrating the
stripped list against the resulting state reproduces every node's original
`data` exactly. -/
theorem offload_hydrate_roundtrip (ns : List JVal) (t cid : String) (st : St)
    (hlen : 0 < ns.length)
    (hdata : ns.all (fun n => truthyOpt (getF n "data")) = true)
    (hids : (ns.map nodeKey).Nodup) :
    ∃ ns1 ns2 st1,
      offloadNodeData (some (.arr ns)) t cid st = (some (.arr ns1), st1) ∧
      (∀ n1 ∈ ns1, getF n1 "data" = none) ∧
      (hydrateNodeData (some (.arr ns1)) t cid st1).1 = .ok (some (.arr ns2)) ∧
      ns2.length = ns.length ∧
      (∀ (i : Nat) (n0 : JVal), ns[i]? = some n0 →
        ∃ n2, ns2[i]? = some n2 ∧ getF n2 "data" = getF n0 "data") := by
  have hd : ∀ n ∈ ns, truthyOpt (getF n "data") = true := by
    simpa [List.all_eq_true] using hdata
  have haux := offloadAux_truthy ns hd []
  set B := ns.foldl
    (fun acc n => setFields acc (nodeKey n) ((getF n "data").getD .null)) [] with hB
  have hBne : B ≠ [] := by
    rcases ns with _ | ⟨n, rest⟩
    · simp at hlen
    · rw [hB]
      simp only [List.foldl_cons]
      exact foldl_setFields_ne_nil rest _ (setFields_ne_nil _ _ _)
  have hBem : B.isEmpty = false := by
    rcases hBe : B with _ | ⟨e, r⟩
    · exact absurd hBe hBne
    · rfl
  have hoff : offloadNodeData (some (.arr ns)) t cid st
      = (some (.arr (ns.map (fun n => delF n "data"))),
         writeJSON (bundlePath t cid) (.obj B) st) := by
    conv_lhs => unfold offloadNodeData
    simp only [haux, hBem]
    rfl
  set st1 := writeJSON (bundlePath t cid) (.obj B) st with hst1
  have hbundle : lookupStore st1.store (bundlePath t cid) = some (.valid (.obj B)) := by
    rw [hst1]
    exact lookupStore_storePut_self _ _ _
  have hhyd : (hydrateNodeData (some (.arr (ns.map (fun n => delF n "data")))) t cid st1).1
      = .ok (some (.arr ((ns.map (fun n => delF n "data")).map (hydrateNode1 (.obj B))))) := by
    conv_lhs => unfold hydrateNodeData readJSON
    simp only [hbundle]
    rfl
  refine ⟨ns.map (fun n => delF n "data"),
    (ns.map (fun n => delF n "data")).map (hydrateNode1 (.obj B)), st1, hoff, ?_, hhyd, ?_, ?_⟩
  · intro n1 hn1
    obtain ⟨n0, _, rfl⟩ := List.mem_map.mp hn1
    exact getF_delF_self _ _
  · simp
  · intro i n0 h0
    have hmem : n0 ∈ ns := by
      have := List.getElem?_eq_some_iff.mp h0
      obtain ⟨hi, hv⟩ := this
      exact hv ▸ List.getElem_mem hi
    have hn0 := hd n0 hmem
    rcases hg : getF n0 "data" with _ | v
    · rw [hg] at hn0
      simp [truthyOpt] at hn0
    · rw [hg] at hn0
      have htr : truthy v = true := hn0
      have hobj : ∃ fs0, n0 = JVal.obj fs0 := by
        cases n0 with
        | obj fs => exact ⟨fs, rfl⟩
        | null => simp [getF] at hg
        | bool b => simp [getF] at hg
        | num m => simp [getF] at hg
        | str s => simp [getF] at hg
        | arr a => simp [getF] at hg
      obtain ⟨fs0, hfs0⟩ := hobj
      have hbl : lookupF B (nodeKey n0) = some v := by
        rw [hB]
        rw [bundle_lookup ns hids [] i n0 h0, hg]
        rfl
      refine ⟨hydrateNode1 (.obj B) (delF n0 "data"), ?_, ?_⟩
      · simp [List.getElem?_map, h0]
      · rw [hydrateNode1_restore B n0 fs0 hfs0 v htr hbl]

def c1wNodes : List JVal :=
  [.obj [("id", .str "a"), ("data", .str "x")],
   .obj [("id", .str "b"), ("data", .obj [("type", .str "table")])]]

theorem offload_hydrate_roundtrip_witness :
    (0 < c1wNodes.length) ∧
    (c1wNodes.all (fun n => truthyOpt (getF n "data")) = true) ∧
    ((c1wNodes.map nodeKey).Nodup) ∧
    (∃ ns1 ns2 st1,
      offloadNodeData (some (.arr c1wNodes)) "u" "c" emptySt = (some (.arr ns1), st1) ∧
      (∀ n1 ∈ ns1, getF n1 "data" = none) ∧
      (hydrateNodeData (some (.arr ns1)) "u" "c" st1).1 = .ok (some (.arr ns2)) ∧
      ns2.length = c1wNodes.length ∧
      (∀ (i : Nat) (n0 : JVal), c1wNodes[i]? = some n0 →
        ∃ n2, ns2[i]? = some n2 ∧ getF n2 "data" = getF n0 "data")) :=
  ⟨by decide, rfl, by decide,
   offload_hydrate_roundtrip c1wNodes "u" "c" emptySt (by decide) rfl (by decide)⟩

-- ─── Claim C10 ───

theorem offloadAux_strips : ∀ (ns : List JVal) (b : List (String × JVal)),
    (∀ n ∈ ns, getF n "data" = none ∨ truthyOpt (getF n "data") = true) →
    ∀ n1 ∈ (offloadAux b ns).2, getF n1 "data" = none := by
  intro ns
  induction ns with
  | nil =>
    intro b h n1 h1
    simp [offloadAux] at h1
  | cons n rest ih =>
    intro b h n1 h1
    rcases hg : getF n "data" with _ | v
    · have hred : offloadAux b (n :: rest)
          = ((offloadAux b rest).1, n :: (offloadAux b rest).2) := by
        conv_lhs => unfold offloadAux
        simp only [hg]
      rw [hred] at h1
      rcases List.mem_cons.mp h1 with rfl | hm
      · exact hg
      · exact ih b (fun m hm2 => h m (by simp [hm2])) n1 hm
    · have htv : truthy v = true := by
        rcases h n (by simp) with hnone | htr
        · rw [hg] at hnone
          exact absurd hnone (by simp)
        · rw [hg] at htr
          exact htr
      have hred : offloadAux b (n :: rest)
          = ((offloadAux (setFields b (nodeKey n) v) rest).1,
             delF n "data" :: (offloadAux (setFields b (nodeKey n) v) rest).2) := by
        conv_lhs => unfold offloadAux
        simp only [hg, htv, if_true]
      rw [hred] at h1
      rcases List.mem_cons.mp h1 with rfl | hm
      · exact getF_delF_self _ _
      · exact ih _ (fun m hm2 => h m (by simp [hm2])) n1 hm

/-- Claim C10: a successful canvas create offloads in place before
responding — the canvas object of the HTTP response is the stripped one
that was written to storage, and none of its nodes carries a `data` field.
(Each submitted node's `data` is absent or truthy; the canvas index the
route upserts into is a well-formed array.) -/
theorem createCanvas_strips_node_data (t : String) (body : JVal) (st : St)
    (now : Int) (ns xs : List JVal)
    (hn : getF body "nodes" = some (.arr ns))
    (hok : ns.all (fun n => ((getF n "data").isNone || truthyOpt (getF n "data"))) = true)
    (hidx : (readIndex t "canvases" st now).1 = .ok (.arr xs)) :
    ∃ c1 st3 ns1,
      createCanvasR t body st now = (.ok c1, st3) ∧
      getF c1 "nodes" = some (.arr ns1) ∧
      (∀ n1 ∈ ns1, getF n1 "data" = none) ∧
      lookupStore st3.store [t, "canvases", jsStr (getF body "id") ++ ".json"]
        = some (.valid c1) := by
  have hok2 : ∀ n ∈ ns, getF n "data" = none ∨ truthyOpt (getF n "data") = true := by
    intro n hm
    have := (List.all_eq_true.mp hok) n hm
    rcases hg : getF n "data" with _ | v
    · exact Or.inl rfl
    · rw [hg] at this
      simp at this
      exact Or.inr (by simpa [truthyOpt] using this)
  have hobj : ∃ fs, body = JVal.obj fs := by
    cases body with
    | obj fs => exact ⟨fs, rfl⟩
    | null => simp [getF] at hn
    | bool b => simp [getF] at hn
    | num m => simp [getF] at hn
    | str s => simp [getF] at hn
    | arr a => simp [getF] at hn
  obtain ⟨fs, hfs⟩ := hobj
  set cid := jsStr (getF body "id") with hcid
  set ns1 := (offloadAux [] ns).2 with hns1
  set stOff := (offloadNodeData (some (.arr ns)) t cid st).2 with hstOff
  have hofr : offloadNodeData (some (.arr ns)) t cid st = (some (.arr ns1), stOff) := rfl
  set c1 := setF body "nodes" (.arr ns1) with hc1
  have hne : ([t, "canvases", cid ++ ".json"] : SPath) ≠ idxPath t "canvases" := by
    simp [idxPath]
  have hne2 : idxPath t "canvases" ≠ ([t, "canvases", cid ++ ".json"] : SPath) :=
    fun hh => hne hh.symm
  have hneb : idxPath t "canvases" ≠ bundlePath t cid := by
    simp [idxPath, bundlePath]
  have hcache2 : (writeJSON [t, "canvases", cid ++ ".json"] c1 stOff).cache = st.cache := by
    rw [writeJSON_cache, hstOff]
    exact offloadNodeData_cache _ _ _ _
  have hidx2 : lookupStore (writeJSON [t, "canvases", cid ++ ".json"] c1 stOff).store
      (idxPath t "canvases") = lookupStore st.store (idxPath t "canvases") := by
    have h1 : lookupStore (writeJSON [t, "canvases", cid ++ ".json"] c1 stOff).store
        (idxPath t "canvases") = lookupStore stOff.store (idxPath t "canvases") :=
      lookupStore_storePut_ne _ _ _ _ hne2
    rw [h1, hstOff]
    exact offloadNodeData_store_ne _ _ _ _ _ hneb
  have hidx3 : (readIndex t "canvases"
      (writeJSON [t, "canvases", cid ++ ".json"] c1 stOff) now).1 = .ok (.arr xs) := by
    rw [readIndex_fst_congr t "canvases" st _ now hcache2 hidx2]
    exact hidx
  have hup := upsertIndex_spec t "canvases" (canvasMetaForIndex c1)
    (writeJSON [t, "canvases", cid ++ ".json"] c1 stOff) now xs hidx3
  refine ⟨c1, writeIndex t "canvases" (.arr (upsertItems xs (canvasMetaForIndex c1)))
    (readIndex t "canvases" (writeJSON [t, "canvases", cid ++ ".json"] c1 stOff) now).2 now,
    ns1, ?_, ?_, ?_, ?_⟩
  · unfold createCanvasR
    simp only [hn, hofr]
    rw [show setFOpt body "nodes" (some (JVal.arr ns1)) = c1 from rfl,
        show jsStr (getF body "id") = cid from rfl, hup]
  · rw [hc1, hfs]
    exact getF_setF_self_obj _ _ _
  · exact offloadAux_strips ns [] hok2
  · rw [writeIndex_store_ne _ _ _ _ _ _ hne, readIndex_store_eq]
    exact lookupStore_storePut_self _ _ _

def c10Body : JVal :=
  .obj [("id", .str "c"),
        ("nodes", .arr [.obj [("id", .str "n1"),
                              ("data", .obj [("type", .str "text"), ("title", .str "A")])],
                        .obj [("id", .str "n2")]])]

theorem createCanvas_strips_node_data_witness :
    (getF c10Body "nodes" = some (.arr [.obj [("id", .str "n1"),
        ("data", .obj [("type", .str "text"), ("title", .str "A")])],
        .obj [("id", .str "n2")]])) ∧
    (([.obj [("id", JVal.str "n1"),
        ("data", JVal.obj [("type", JVal.str "text"), ("title", JVal.str "A")])],
       .obj [("id", JVal.str "n2")]].all
        (fun n => ((getF n "data").isNone || truthyOpt (getF n "data")))) = true) ∧
    ((readIndex "u" "canvases" emptySt 0).1 = .ok (.arr [])) ∧
    (∃ c1 st3 ns1,
      createCanvasR "u" c10Body emptySt 0 = (.ok c1, st3) ∧
      getF c1 "nodes" = some (.arr ns1) ∧
      (∀ n1 ∈ ns1, getF n1 "data" = none) ∧
      lookupStore st3.store ["u", "canvases", jsStr (getF c10Body "id") ++ ".json"]
        = some (.valid c1)) :=
  ⟨rfl, rfl, rfl,
   createCanvas_strips_node_data "u" c10Body emptySt 0 _ [] rfl rfl rfl⟩

-- ─── Claim C9: tenant isolation of storage paths ───

/-- Every storage key logged between the two states either was already in
the log or starts with the tenant segment. -/
def TenantLog (t : String) (st0 st1 : St) : Prop :=
  ∀ p ∈ st1.log, p ∈ st0.log ∨ p.head? = some t

theorem tenantLog_refl (t : String) (st : St) : TenantLog t st st :=
  fun _ hp => Or.inl hp

theorem tenantLog_trans {t : String} {st0 st1 st2 : St}
    (h1 : TenantLog t st0 st1) (h2 : TenantLog t st1 st2) : TenantLog t st0 st2 :=
  fun p hp => (h2 p hp).elim (fun h => h1 p h) Or.inr

theorem tenantLog_append (t : String) (st0 st1 : St) (l : List SPath)
    (h : st1.log = st0.log ++ l) (hl : ∀ p ∈ l, p.head? = some t) :
    TenantLog t st0 st1 := by
  intro p hp
  rw [h] at hp
  rcases List.mem_append.mp hp with h1 | h2
  · exact Or.inl h1
  · exact Or.inr (hl p h2)

theorem tlog_of_eq {α : Type} {t : String} {st : St} {x : α × St} {r : α}
    {st1 : St} (hcall : TenantLog t st x.2) (h : x = (r, st1)) :
    TenantLog t st st1 := by
  rw [h] at hcall
  exact hcall

theorem readJSON_tlog (t : String) (p : SPath) (st : St) (hp : p.head? = some t) :
    TenantLog t st (readJSON p st).2 :=
  tenantLog_append t st _ [p] rfl (by
    intro q hq
    rw [List.mem_singleton.mp hq]
    exact hp)

theorem writeJSON_tlog (t : String) (p : SPath) (v : JVal) (st : St)
    (hp : p.head? = some t) : TenantLog t st (writeJSON p v st) :=
  tenantLog_append t st _ [p] rfl (by
    intro q hq
    rw [List.mem_singleton.mp hq]
    exact hp)

theorem deleteFileOp_tlog (t : String) (p : SPath) (st : St)
    (hp : p.head? = some t) : TenantLog t st (deleteFileOp p st) :=
  tenantLog_append t st _ [p] rfl (by
    intro q hq
    rw [List.mem_singleton.mp hq]
    exact hp)

theorem deleteByPfx_tlog (t : String) (p : SPath) (st : St)
    (hp : p.head? = some t) : TenantLog t st (deleteByPfx p st) :=
  tenantLog_append t st _ [p] rfl (by
    intro q hq
    rw [List.mem_singleton.mp hq]
    exact hp)

theorem readIndexMiss_log (t ty : String) (st : St) (now : Int) :
    (readIndexMiss t ty st now).2.log = st.log ++ [idxPath t ty] := by
  unfold readIndexMiss readJSON
  rcases lookupStore st.store (idxPath t ty) with _ | v
  · rfl
  · cases v <;> rfl

theorem readIndex_tlog (t ty : String) (st : St) (now : Int) :
    TenantLog t st (readIndex t ty st now).2 := by
  unfold readIndex
  rcases cacheGet st.cache (idxCacheKey t ty) now with _ | c
  · exact tenantLog_append t st _ [idxPath t ty] (readIndexMiss_log t ty st now)
      (by intro q hq; rw [List.mem_singleton.mp hq]; rfl)
  · by_cases ht : truthy c
    · simp only [ht, if_true]
      exact tenantLog_refl t st
    · simp only [ht]
      exact tenantLog_append t st _ [idxPath t ty] (readIndexMiss_log t ty st now)
        (by intro q hq; rw [List.mem_singleton.mp hq]; rfl)

theorem writeIndex_tlog (t ty : String) (items : JVal) (st : St) (now : Int) :
    TenantLog t st (writeIndex t ty items st now) :=
  tenantLog_append t st _ [idxPath t ty] rfl
    (by intro q hq; rw [List.mem_singleton.mp hq]; rfl)

theorem upsertIndex_tlog (t ty : String) (item : JVal) (st : St) (now : Int) :
    TenantLog t st (upsertIndex t ty item st now).2 := by
  unfold upsertIndex
  rcases h : readIndex t ty st now with ⟨r, st1⟩
  have h1 := tlog_of_eq (readIndex_tlog t ty st now) h
  simp only [h]
  rcases r with e | dataJ
  · exact h1
  · cases dataJ with
    | arr items => exact tenantLog_trans h1 (writeIndex_tlog t ty _ st1 now)
    | null => exact h1
    | bool b => exact h1
    | num n => exact h1
    | str s => exact h1
    | obj fs => exact h1

theorem removeFromIndex_tlog (t ty : String) (id : JVal) (st : St) (now : Int) :
    TenantLog t st (removeFromIndex t ty id st now).2 := by
  unfold removeFromIndex
  rcases h : readIndex t ty st now with ⟨r, st1⟩
  have h1 := tlog_of_eq (readIndex_tlog t ty st now) h
  simp only [h]
  rcases r with e | dataJ
  · exact h1
  · cases dataJ with
    | arr items => exact tenantLog_trans h1 (writeIndex_tlog t ty _ st1 now)
    | null => exact h1
    | bool b => exact h1
    | num n => exact h1
    | str s => exact h1
    | obj fs => exact h1

theorem offloadNodeData_tlog (t : String) (nv : Option JVal) (cid : String)
    (st : St) : TenantLog t st (offloadNodeData nv t cid st).2 := by
  match nv with
  | none => exact tenantLog_refl t st
  | some .null => exact tenantLog_refl t st
  | some (.bool b) => exact tenantLog_refl t st
  | some (.num n) => exact tenantLog_refl t st
  | some (.str s) => exact tenantLog_refl t st
  | some (.obj fs) => exact tenantLog_refl t st
  | some (.arr ns) =>
    show TenantLog t st (if (offloadAux [] ns).1.isEmpty then st
        else writeJSON (bundlePath t cid) (.obj (offloadAux [] ns).1) st)
    by_cases h : (offloadAux [] ns).1.isEmpty
    · simp only [h, if_true]
      exact tenantLog_refl t st
    · simp only [h]
      exact writeJSON_tlog t _ _ st rfl

theorem hydrateLegacy_tlog (t : String) : ∀ (ns : List JVal) (st : St),
    (∀ n ∈ ns, ∀ ref, getF n "_dataRef" = some (.str ref) →
      (strToPath ref).head? = some t) →
    TenantLog t st (hydrateLegacy ns st).2 := by
  intro ns
  induction ns with
  | nil => intro st h; exact tenantLog_refl t st
  | cons n rest ih =>
    intro st h
    have hrest : ∀ m ∈ rest, ∀ ref, getF m "_dataRef" = some (.str ref) →
        (strToPath ref).head? = some t :=
      fun m hm => h m (by simp [hm])
    rcases hg : getF n "_dataRef" with _ | r
    · have hred : (hydrateLegacy (n :: rest) st).2 = (hydrateLegacy rest st).2 := by
        conv_lhs => rw [show hydrateLegacy (n :: rest) st
          = (n :: (hydrateLegacy rest st).1, (hydrateLegacy rest st).2) from by
            conv_lhs => unfold hydrateLegacy
            simp only [hg]]
      rw [hred]
      exact ih st hrest
    · by_cases htr : truthy r
      · cases r with
        | str ref =>
          have href : (strToPath ref).head? = some t := h n (by simp) ref hg
          have hred : (hydrateLegacy (n :: rest) st).2
              = (hydrateLegacy rest { st with log := st.log ++ [strToPath ref] }).2 := by
            conv_lhs => unfold hydrateLegacy readJSON
            simp only [hg, htr, if_true]
            rcases lookupStore st.store (strToPath ref) with _ | v
            · rfl
            · cases v <;> rfl
          rw [hred]
          refine tenantLog_trans ?_ (ih _ hrest)
          exact tenantLog_append t st _ [strToPath ref] rfl
            (by intro q hq; rw [List.mem_singleton.mp hq]; exact href)
        | null => simp [truthy] at htr
        | bool b =>
          have hred : (hydrateLegacy (n :: rest) st).2 = (hydrateLegacy rest st).2 := by
            conv_lhs => unfold hydrateLegacy
            simp only [hg, htr, if_true]
          rw [hred]
          exact ih st hrest
        | num m =>
          have hred : (hydrateLegacy (n :: rest) st).2 = (hydrateLegacy rest st).2 := by
            conv_lhs => unfold hydrateLegacy
            simp only [hg, htr, if_true]
          rw [hred]
          exact ih st hrest
        | arr a =>
          have hred : (hydrateLegacy (n :: rest) st).2 = (hydrateLegacy rest st).2 := by
            conv_lhs => unfold hydrateLegacy
            simp only [hg, htr, if_true]
          rw [hred]
          exact ih st hrest
        | obj o =>
          have hred : (hydrateLegacy (n :: rest) st).2 = (hydrateLegacy rest st).2 := by
            conv_lhs => unfold hydrateLegacy
            simp only [hg, htr, if_true]
          rw [hred]
          exact ih st hrest
      · have htr2 : truthy r = false := by
          rcases hb : truthy r
          · rfl
          · exact absurd hb htr
        have hred : (hydrateLegacy (n :: rest) st).2 = (hydrateLegacy rest st).2 := by
          conv_lhs => unfold hydrateLegacy
          simp only [hg, htr2]
          rcases r <;> rfl
        rw [hred]
        exact ih st hrest

theorem hydrateNodeData_tlog (t cid : String) (nv : Option JVal) (st : St)
    (h : ∀ ns, nv = some (.arr ns) → ∀ n ∈ ns, ∀ ref,
      getF n "_dataRef" = some (.str ref) → (strToPath ref).head? = some t) :
    TenantLog t st (hydrateNodeData nv t cid st).2 := by
  match nv with
  | none => exact tenantLog_refl t st
  | some .null => exact tenantLog_refl t st
  | some (.bool b) => exact tenantLog_refl t st
  | some (.num n) => exact tenantLog_refl t st
  | some (.str s) => exact tenantLog_refl t st
  | some (.obj fs) => exact tenantLog_refl t st
  | some (.arr ns) =>
    have hns := h ns rfl
    have hstep : TenantLog t st { st with log := st.log ++ [bundlePath t cid] } :=
      tenantLog_append t st _ [bundlePath t cid] rfl
        (by intro q hq; rw [List.mem_singleton.mp hq]; rfl)
    have hgoal : (hydrateNodeData (some (.arr ns)) t cid st).2
        = { st with log := st.log ++ [bundlePath t cid] } ∨
        (hydrateNodeData (some (.arr ns)) t cid st).2
        = (hydrateLegacy ns { st with log := st.log ++ [bundlePath t cid] }).2 := by
      unfold hydrateNodeData readJSON
      rcases hl : lookupStore st.store (bundlePath t cid) with _ | v
      · simp only [hl]
        right
        trivial
      · cases v with
        | corrupt =>
          simp only [hl]
          left
          trivial
        | valid b =>
          simp only [hl]
          by_cases hb : truthyOpt (some b) = true
          · rw [if_pos hb]
            exact Or.inl rfl
          · rw [if_neg hb]
            exact Or.inr rfl
    rcases hgoal with hg | hg
    · rw [hg]
      exact hstep
    · rw [hg]
      exact tenantLog_trans hstep (hydrateLegacy_tlog t ns _ hns)

theorem listWorkspacesR_tlog (t : String) (st : St) (now : Int) :
    TenantLog t st (listWorkspacesR t st now).2 := by
  unfold listWorkspacesR
  rcases h : readIndex t "workspaces" st now with ⟨r, st1⟩
  have h1 := tlog_of_eq (readIndex_tlog t "workspaces" st now) h
  simp only [h]
  rcases r with e | v
  · exact h1
  · cases v <;> exact h1

theorem listCanvasesR_tlog (t : String) (w : Option String) (st : St) (now : Int) :
    TenantLog t st (listCanvasesR t w st now).2 := by
  unfold listCanvasesR
  rcases h : readIndex t "canvases" st now with ⟨r, st1⟩
  have h1 := tlog_of_eq (readIndex_tlog t "canvases" st now) h
  simp only [h]
  rcases r with e | v
  · exact h1
  · cases v <;> exact h1

theorem createWorkspaceR_tlog (t : String) (body : JVal) (st : St) (now : Int) :
    TenantLog t st (createWorkspaceR t body st now).2 := by
  unfold createWorkspaceR
  rcases h : upsertIndex t "workspaces" body
      (writeJSON [t, "workspaces", jsStr (getF body "id") ++ ".json"] body st) now
    with ⟨r, st2⟩
  have hw : TenantLog t st
      (writeJSON [t, "workspaces", jsStr (getF body "id") ++ ".json"] body st) :=
    writeJSON_tlog t _ body st rfl
  have h2 := tenantLog_trans hw
    (tlog_of_eq (upsertIndex_tlog t "workspaces" body _ now) h)
  simp only [h]
  cases r <;> exact h2

theorem updateWorkspaceR_tlog (t id : String) (body : JVal) (st : St) (now : Int) :
    TenantLog t st (updateWorkspaceR t id body st now).2 := by
  unfold updateWorkspaceR
  rcases h : readJSON [t, "workspaces", id ++ ".json"] st with ⟨r, st1⟩
  have h1 := tlog_of_eq (readJSON_tlog t [t, "workspaces", id ++ ".json"] st rfl) h
  simp only [h]
  rcases r with e | oe
  · exact h1
  · rcases h2 : upsertIndex t "workspaces"
        (.obj (mergeFields (spreadFieldsO oe) (spreadFieldsV body)))
        (writeJSON [t, "workspaces", id ++ ".json"]
          (.obj (mergeFields (spreadFieldsO oe) (spreadFieldsV body))) st1) now
      with ⟨r2, st3⟩
    have hw : TenantLog t st1 (writeJSON [t, "workspaces", id ++ ".json"]
        (.obj (mergeFields (spreadFieldsO oe) (spreadFieldsV body))) st1) :=
      writeJSON_tlog t _ _ st1 rfl
    have h3 := tenantLog_trans h1 (tenantLog_trans hw
      (tlog_of_eq (upsertIndex_tlog t "workspaces" _ _ now) h2))
    simp only [h2]
    cases r2 <;> exact h3

theorem deleteFold_tlog (t : String) (l : List JVal) : ∀ st : St,
    TenantLog t st (l.foldl (fun s c =>
      deleteFileOp [t, "canvases", jsStr (getF c "id") ++ ".json"]
        (deleteByPfx [t, "canvas-data", jsStr (getF c "id")] s)) st) := by
  induction l with
  | nil => intro st; exact tenantLog_refl t st
  | cons c rest ih =>
    intro st
    simp only [List.foldl_cons]
    exact tenantLog_trans
      (tenantLog_trans (deleteByPfx_tlog t [t, "canvas-data", jsStr (getF c "id")] st rfl)
        (deleteFileOp_tlog t [t, "canvases", jsStr (getF c "id") ++ ".json"] _ rfl))
      (ih _)

theorem deleteWorkspaceR_tlog (t wid : String) (st : St) (now : Int) :
    TenantLog t st (deleteWorkspaceR t wid st now).2 := by
  unfold deleteWorkspaceR
  rcases h : readIndex t "canvases" st now with ⟨r, st1⟩
  have h1 := tlog_of_eq (readIndex_tlog t "canvases" st now) h
  simp only [h]
  rcases r with e | v
  · exact h1
  · cases v with
    | arr canvasIndex =>
      rcases h2 : removeFromIndex t "workspaces" (.str wid)
          (deleteFileOp [t, "workspaces", wid ++ ".json"]
            (writeIndex t "canvases"
              (.arr (canvasIndex.filter
                (fun c => !(jsStrictEq (getF c "workspaceId") (some (.str wid))))))
              ((canvasIndex.filter
                  (fun c => jsStrictEq (getF c "workspaceId") (some (.str wid)))).foldl
                (fun s c => deleteFileOp [t, "canvases", jsStr (getF c "id") ++ ".json"]
                  (deleteByPfx [t, "canvas-data", jsStr (getF c "id")] s)) st1) now)) now
        with ⟨r2, st5⟩
      have hchain : TenantLog t st1
          (deleteFileOp [t, "workspaces", wid ++ ".json"]
            (writeIndex t "canvases"
              (.arr (canvasIndex.filter
                (fun c => !(jsStrictEq (getF c "workspaceId") (some (.str wid))))))
              ((canvasIndex.filter
                  (fun c => jsStrictEq (getF c "workspaceId") (some (.str wid)))).foldl
                (fun s c => deleteFileOp [t, "canvases", jsStr (getF c "id") ++ ".json"]
                  (deleteByPfx [t, "canvas-data", jsStr (getF c "id")] s)) st1) now)) :=
        tenantLog_trans (deleteFold_tlog t _ st1)
          (tenantLog_trans (writeIndex_tlog t "canvases" _ _ now)
            (deleteFileOp_tlog t _ _ rfl))
      have h3 := tenantLog_trans h1 (tenantLog_trans hchain
        (tlog_of_eq (removeFromIndex_tlog t "workspaces" _ _ now) h2))
      simp only [h2]
      cases r2 <;> exact h3
    | null => exact h1
    | bool b => exact h1
    | num n => exact h1
    | str s => exact h1
    | obj fs => exact h1

theorem deleteCanvasR_tlog (t id : String) (st : St) (now : Int) :
    TenantLog t st (deleteCanvasR t id st now).2 := by
  unfold deleteCanvasR
  rcases h : removeFromIndex t "canvases" (.str id)
      (deleteFileOp [t, "canvases", id ++ ".json"]
        (deleteByPfx [t, "canvas-data", id]
          (deleteFileOp [t, "canvas-data", id ++ ".json"] st))) now with ⟨r, st4⟩
  have hchain : TenantLog t st
      (deleteFileOp [t, "canvases", id ++ ".json"]
        (deleteByPfx [t, "canvas-data", id]
          (deleteFileOp [t, "canvas-data", id ++ ".json"] st))) :=
    tenantLog_trans
      (tenantLog_trans (deleteFileOp_tlog t [t, "canvas-data", id ++ ".json"] st rfl)
        (deleteByPfx_tlog t [t, "canvas-data", id] _ rfl))
      (deleteFileOp_tlog t [t, "canvases", id ++ ".json"] _ rfl)
  have h3 := tenantLog_trans hchain
    (tlog_of_eq (removeFromIndex_tlog t "canvases" _ _ now) h)
  simp only [h]
  cases r <;> exact h3

theorem getCanvasR_tlog (t id : String) (st : St)
    (href : ∀ c ns, lookupStore st.store [t, "canvases", id ++ ".json"]
        = some (.valid c) →
      getF c "nodes" = some (.arr ns) →
      ∀ n ∈ ns, ∀ ref, getF n "_dataRef" = some (.str ref) →
        (strToPath ref).head? = some t) :
    TenantLog t st (getCanvasR t id st).2 := by
  have hstep : TenantLog t st { st with log := st.log ++ [[t, "canvases", id ++ ".json"]] } :=
    tenantLog_append t st _ [[t, "canvases", id ++ ".json"]] rfl
      (by intro q hq; rw [List.mem_singleton.mp hq]; rfl)
  unfold getCanvasR readJSON
  rcases hl : lookupStore st.store [t, "canvases", id ++ ".json"] with _ | v
  · simp only [hl]
    exact hstep
  · cases v with
    | corrupt =>
      simp only [hl]
      exact hstep
    | valid c =>
      simp only [hl]
      by_cases hb : truthyOpt (some c) = true
      · rw [if_pos hb]
        simp only [Option.getD]
        rcases hh : hydrateNodeData (getF c "nodes") t id
            { st with log := st.log ++ [[t, "canvases", id ++ ".json"]] } with ⟨hr, st2⟩
        have hhy := tlog_of_eq (hydrateNodeData_tlog t id (getF c "nodes")
          { st with log := st.log ++ [[t, "canvases", id ++ ".json"]] }
          (fun ns hns => href c ns hl hns)) hh
        have h3 := tenantLog_trans hstep hhy
        cases hr <;> exact h3
      · rw [if_neg hb]
        exact hstep

theorem createCanvasR_tlog (t : String) (body : JVal) (st : St) (now : Int) :
    TenantLog t st (createCanvasR t body st now).2 := by
  unfold createCanvasR
  rcases ho : offloadNodeData (getF body "nodes") t (jsStr (getF body "id")) st
    with ⟨nv, st1⟩
  have h1 := tlog_of_eq
    (offloadNodeData_tlog t (getF body "nodes") (jsStr (getF body "id")) st) ho
  simp only [ho]
  rcases h2 : upsertIndex t "canvases" (canvasMetaForIndex (setFOpt body "nodes" nv))
      (writeJSON [t, "canvases", jsStr (getF body "id") ++ ".json"]
        (setFOpt body "nodes" nv) st1) now with ⟨r, st3⟩
  have hw : TenantLog t st1 (writeJSON [t, "canvases", jsStr (getF body "id") ++ ".json"]
      (setFOpt body "nodes" nv) st1) :=
    writeJSON_tlog t _ _ st1 rfl
  have h3 := tenantLog_trans h1 (tenantLog_trans hw
    (tlog_of_eq (upsertIndex_tlog t "canvases" _ _ now) h2))
  simp only [h2]
  cases r <;> exact h3

theorem updateCanvasR_tlog (t id : String) (body : JVal) (st : St) (now : Int) :
    TenantLog t st (updateCanvasR t id body st now).2 := by
  unfold updateCanvasR
  rcases ho : offloadNodeData (getF body "nodes") t id st with ⟨nv, st1⟩
  have h1 := tlog_of_eq (offloadNodeData_tlog t (getF body "nodes") id st) ho
  simp only [ho]
  rcases h : readJSON [t, "canvases", id ++ ".json"] st1 with ⟨r, st2⟩
  have h2 := tenantLog_trans h1
    (tlog_of_eq (readJSON_tlog t [t, "canvases", id ++ ".json"] st1 rfl) h)
  simp only [h]
  rcases r with e | oe
  · exact h2
  · rcases h3 : upsertIndex t "canvases"
        (canvasMetaForIndex (.obj (mergeFields (spreadFieldsO oe)
          (spreadFieldsV (setFOpt body "nodes" nv)))))
        (writeJSON [t, "canvases", id ++ ".json"]
          (.obj (mergeFields (spreadFieldsO oe)
            (spreadFieldsV (setFOpt body "nodes" nv)))) st2) now with ⟨r2, st4⟩
    have hw : TenantLog t st2 (writeJSON [t, "canvases", id ++ ".json"]
        (.obj (mergeFields (spreadFieldsO oe)
          (spreadFieldsV (setFOpt body "nodes" nv)))) st2) :=
      writeJSON_tlog t _ _ st2 rfl
    have h4 := tenantLog_trans h2 (tenantLog_trans hw
      (tlog_of_eq (upsertIndex_tlog t "canvases" _ _ now) h3))
    simp only [h3]
    cases r2 <;> exact h4

theorem seedR_tlog (t : String) (body : JVal) (st : St) (now : Int) :
    TenantLog t st (seedR t body st now).2 := by
  unfold seedR
  rcases h : readIndex t "workspaces" st now with ⟨r, st1⟩
  have h1 := tlog_of_eq (readIndex_tlog t "workspaces" st now) h
  simp only [h]
  rcases r with e | exJ
  · exact h1
  · by_cases hlen : 0 < jsLen exJ
    · simp only [if_pos hlen]
      exact h1
    · simp only [if_neg hlen]
      rcases hcv : getF body "canvas" with _ | cv
      · exact h1
      · rcases ho : offloadNodeData (getF cv "nodes") t (jsStr (getF cv "id")) st1
          with ⟨nv, st2⟩
        have h2 := tenantLog_trans h1 (tlog_of_eq
          (offloadNodeData_tlog t (getF cv "nodes") (jsStr (getF cv "id")) st1) ho)
        simp only [ho]
        rcases hws : getF body "workspace" with _ | ws
        · exact h2
        · rcases hu1 : upsertIndex t "workspaces" ws
              (writeJSON [t, "canvases", jsStr (getF cv "id") ++ ".json"]
                (setFOpt cv "nodes" nv)
                (writeJSON [t, "workspaces", jsStr (getF ws "id") ++ ".json"] ws st2)) now
            with ⟨r1, st5⟩
          have h3 := tenantLog_trans h2 (tenantLog_trans
            (writeJSON_tlog t [t, "workspaces", jsStr (getF ws "id") ++ ".json"] ws st2 rfl)
            (tenantLog_trans
              (writeJSON_tlog t [t, "canvases", jsStr (getF cv "id") ++ ".json"]
                (setFOpt cv "nodes" nv) _ rfl)
              (tlog_of_eq (upsertIndex_tlog t "workspaces" ws _ now) hu1)))
          simp only [hu1]
          rcases r1 with e1 | u1
          · exact h3
          · rcases hu2 : upsertIndex t "canvases"
                (canvasMetaForIndex (setFOpt cv "nodes" nv)) st5 now with ⟨r2, st6⟩
            have h4 := tenantLog_trans h3
              (tlog_of_eq (upsertIndex_tlog t "canvases" _ st5 now) hu2)
            simp only [hu2]
            cases r2 <;> exact h4

/-- The only reads whose key is not built from the tenant are the legacy
`_dataRef` reads of `getCanvas`; this side condition says those stored
refs point under the tenant. -/
def OpRefsOK : Op → String → St → Prop
  | .getCv id, t, st =>
    ∀ c ns, lookupStore st.store [t, "canvases", id ++ ".json"] = some (.valid c) →
      getF c "nodes" = some (.arr ns) →
      ∀ n ∈ ns, ∀ ref, getF n "_dataRef" = some (.str ref) →
        (strToPath ref).head? = some t
  | _, _, _ => True

def c9Doc : JVal :=
  .obj [("id", .str "c"),
        ("nodes", .arr [.obj [("id", .str "n"), ("_dataRef", .str "t2/secret.json")]])]

def c9St : St :=
  ⟨[(["t1", "canvases", "c.json"], .valid c9Doc),
    (["t2", "secret.json"], .valid (.str "secret"))], [], []⟩

/-- Claim C9 at a concrete input on which it fails: tenant t1 owns a
canvas whose node carries the legacy pointer `_dataRef` =
"t2/secret.json".  `getCanvas` for t1 hydrates by reading that key
verbatim: the run's storage log contains a key that does not start with
t1, and the response body hands t1 the JSON stored under tenant t2 — a
cross-tenant read, so not every storage path touched on behalf of t1
begins with the t1 prefix, and the result does depend on another
tenant's data. -/
theorem cross_tenant_read_counterexample :
    (["t2", "secret.json"] : SPath) ∈ (runOp (Op.getCv "c") "t1" c9St 0).2.log ∧
    (["t2", "secret.json"] : SPath).head? ≠ some "t1" ∧
    (runOp (Op.getCv "c") "t1" c9St 0).1
      = .ok (.obj [("id", .str "c"),
          ("nodes", .arr [.obj [("id", .str "n"), ("data", .str "secret")]])]) :=
  ⟨by decide, by decide, rfl⟩

/-- Claim C9, amended: every storage key an operation run on behalf of
tenant `t` reads, writes or deletes begins with the `t` segment — except
that hydration of legacy `_dataRef` pointers passes the stored string to
the blob layer verbatim, so for `getCanvas` the stored refs are required
to point under the tenant (`OpRefsOK`); all other operations need no side
condition. -/
theorem runOp_tenant_paths (op : Op) (t : String) (st : St) (now : Int)
    (href : OpRefsOK op t st) :
    ∀ p ∈ (runOp op t st now).2.log, p ∈ st.log ∨ p.head? = some t := by
  cases op with
  | listWs => exact listWorkspacesR_tlog t st now
  | createWs body => exact createWorkspaceR_tlog t body st now
  | updateWs id body => exact updateWorkspaceR_tlog t id body st now
  | deleteWs id => exact deleteWorkspaceR_tlog t id st now
  | listCv w => exact listCanvasesR_tlog t w st now
  | getCv id => exact getCanvasR_tlog t id st href
  | createCv body => exact createCanvasR_tlog t body st now
  | updateCv id body => exact updateCanvasR_tlog t id body st now
  | deleteCv id => exact deleteCanvasR_tlog t id st now
  | seedOp body => exact seedR_tlog t body st now

theorem runOp_tenant_paths_witness :
    OpRefsOK (Op.getCv "c") "u" emptySt ∧
    (∀ p ∈ (runOp (Op.getCv "c") "u" emptySt 0).2.log,
      p ∈ emptySt.log ∨ p.head? = some "u") := by
  have h : OpRefsOK (Op.getCv "c") "u" emptySt := by
    intro c ns hl
    exact absurd hl (by intro hh; exact Option.noConfusion hh)
  exact ⟨h, runOp_tenant_paths (Op.getCv "c") "u" emptySt 0 h⟩
